import Mathlib

/-!
Shallow embedding of `src/get_data_by_id.py`, the watermark-based incremental
ingestion engine pulling the Yinzcam Realtime API into Azure Data Lake.

Modelling conventions:
* pandas DataFrames become `Table`: an ordered header (column names) plus rows
  of JSON-ish cell values (`Val`, either a string or a non-negative integer);
* the Azure Data Lake file system becomes an association list from full paths
  to stored files, kept in write order (`insertStore` overwrites in place);
* each HTTP GET attempt is answered by an oracle `Nat → Nat × Nat → Outcome`
  mapping the global attempt counter and the request's `(startId, maxRecords)`
  query parameters to a transport failure, a JSON-parse failure, or a parsed
  body (the four record sets);
* a CSV file written by `push_to_adl` and re-read by `get_max_id_adl` round
  trips exactly for the cell values the pipeline writes, so a stored file
  carries both its serialized bytes and its parsed table (`none` models a
  file that `pd.read_csv` cannot parse).
-/

namespace YinzIngest

/-! ## Lexicographic string comparison

Python's `sorted` orders strings lexicographically by Unicode code point;
`get_max_id_adl` relies on this ordering of the data-lake paths. -/

/-- Strict lexicographic order on char lists by code point, as Python's `<`
on strings. -/
def lexLt : List Char → List Char → Bool
  | _, [] => false
  | [], _ :: _ => true
  | a :: as, b :: bs =>
    if a.toNat < b.toNat then true
    else if b.toNat < a.toNat then false
    else lexLt as bs

/-- Strict lexicographic order on strings (Python `a < b`). -/
def strLt (a b : String) : Bool := lexLt a.data b.data

/-- Lexicographic `≤` on strings, the comparison `sorted` effectively uses. -/
def strLe (a b : String) : Bool := !(strLt b a)

/-- `strLe` as a binary relation, used to instantiate `List.insertionSort`. -/
def strLeR : String → String → Prop := fun a b => strLe a b = true

instance : DecidableRel strLeR := fun a b => by
  unfold strLeR; infer_instance

/-- Boolean check that the first char list starts the second. -/
def prefB : List Char → List Char → Bool
  | [], _ => true
  | _ :: _, [] => false
  | a :: as, b :: bs => a == b && prefB as bs

/-- Boolean check that string `p` starts string `s`. -/
def strPref (p s : String) : Bool := prefB p.data s.data

/-! ## Tables (pandas DataFrames) -/

/-- One cell: either a string or a non-negative integer, the two JSON shapes
the API body uses for the relevant fields. -/
inductive Val where
  | str (s : String)
  | nat (n : Nat)
deriving DecidableEq, Repr

/-- A DataFrame: ordered column names plus rows of cells aligned with them. -/
structure Table where
  cols : List String
  rows : List (List Val)
deriving DecidableEq, Repr

/-- Value of row `r` at the column named `c` (given the table's header). -/
def cellAt (cols : List String) (r : List Val) (c : String) : Val :=
  r.getD ((cols.findIdx? (· == c)).getD 0) (.str "")

/-- `df[sel]`: column projection/reordering; `none` when a requested column is
missing, which in pandas raises a `KeyError`. -/
def project (t : Table) (sel : List String) : Option Table :=
  if sel.all (fun c => t.cols.contains c) then
    some ⟨sel, t.rows.map (fun r => sel.map (cellAt t.cols r))⟩
  else none

/-- `df.drop_duplicates(keep='last')` on the row list: keep only the last
occurrence of each row value, preserving the positions of the kept rows. -/
def dedupKeepLast : List (List Val) → List (List Val)
  | [] => []
  | r :: rs => if r ∈ rs then dedupKeepLast rs else r :: dedupKeepLast rs

/-- `df.drop_duplicates(keep='last')`. -/
def dedupTable (t : Table) : Table := ⟨t.cols, dedupKeepLast t.rows⟩

/-- `astype(int)` on a single cell: integer cells pass through, strings are
parsed; `none` models the `ValueError`. -/
def valToNat : Val → Option Nat
  | .nat n => some n
  | .str s => s.toNat?

/-- Option-valued map over a list: `none` as soon as one element fails. -/
def mapOpt (f : α → Option β) : List α → Option (List β)
  | [] => some []
  | a :: l =>
    match f a, mapOpt f l with
    | some b, some bs => some (b :: bs)
    | _, _ => none

/-- `df.id.astype(int)`: the integer id column of a table; `none` models the
exception raised when the `id` column is missing or a cell fails to parse. -/
def idNats (t : Table) : Option (List Nat) :=
  match t.cols.findIdx? (· == "id") with
  | none => none
  | some i => mapOpt (fun r => valToNat (r.getD i (.str ""))) t.rows

/-- `df.id = df.id.astype(int)` (main, line 220): coerce the id column of a
table to integers in place. -/
def coerceIds (t : Table) : Option Table :=
  match t.cols.findIdx? (· == "id") with
  | none => none
  | some i =>
    match mapOpt (fun r => (valToNat (r.getD i (.str ""))).map (fun n => r.set i (.nat n)))
        t.rows with
    | none => none
    | some rows => some ⟨t.cols, rows⟩

/-- `series.max()` for a non-negative integer series (0 on an empty list; the
pipeline only takes maxima of non-empty id lists). -/
def maxL (l : List Nat) : Nat := l.foldl Nat.max 0

/-- `series.min()` for a non-negative integer series. -/
def minL : List Nat → Nat
  | [] => 0
  | x :: xs => xs.foldl Nat.min x

/-- Rendering of one cell into CSV text, as `pandas.to_csv` writes the values
this pipeline produces (plain strings and decimal integers). -/
def valRender : Val → String
  | .str s => s
  | .nat n => toString n

/-- `df.to_csv(index=False)`: header row followed by one comma-joined line per
row, no index column. -/
def to_csv (t : Table) : String :=
  String.intercalate "," t.cols ++ "\n"
    ++ String.join (t.rows.map (fun r => String.intercalate "," (r.map valRender) ++ "\n"))

/-! ## The canonical column lists (main, source lines 238-241) -/

def actions_cols : List String :=
  ["id", "in_venue", "invisible_date_time", "request_date_time", "resource_major",
   "resource_minor", "session_id", "sort_order", "type_major", "type_minor", "yinzid"]

def sessions_cols : List String :=
  ["actions", "app_id", "app_version", "carrier", "device_adid",
   "device_generated_id", "device_id", "end_date_time", "hardware_device_id",
   "id", "mcc", "mdn", "mnc", "os_version", "start_date_time"]

def geoip_cols : List String :=
  ["city_geoname_id", "city_name", "continent_code", "continent_geoname_id",
   "continent_name", "country_code", "country_geoname_id", "country_name", "id",
   "postal_code", "session_device_generated_id", "subdivision1_code",
   "subdivision1_geoname_id", "subdivision1_name", "subdivision2_code",
   "subdivision2_geoname_id", "subdivision2_name", "subdivision3_code",
   "subdivision3_geoname_id", "subdivision3_name", "subdivision4_code",
   "subdivision4_geoname_id", "subdivision4_name", "time_zone"]

def hardware_cols : List String :=
  ["id", "manufacturer", "model", "platform", "screen_width", "screen_height"]

/-! ## `get_right_format` (source lines 31-36)

`strptime(time, '%Y-%m-%dT%H:%M:%S%z')`, conversion to the `America/Toronto`
time zone, and `strftime('%Y-%m-%d_%H_%M_%S')`.  The Gregorian calendar
arithmetic uses the standard civil-date algorithms; the Toronto UTC offset is
modelled from the IANA tzdata rule in force since 2007 (UTC-4 from 2:00 EST on
the second Sunday of March until 2:00 EDT on the first Sunday of November,
UTC-5 otherwise), which covers every timestamp this pipeline is run with. -/

/-- Days from civil date to days since 1970-01-01 (proleptic Gregorian). -/
def daysFromCivil (y m d : Int) : Int :=
  let y' := if m ≤ 2 then y - 1 else y
  let era := Int.fdiv y' 400
  let yoe := y' - era * 400
  let mp := Int.emod (m + 9) 12
  let doy := Int.fdiv (153 * mp + 2) 5 + d - 1
  let doe := yoe * 365 + Int.fdiv yoe 4 - Int.fdiv yoe 100 + doy
  era * 146097 + doe - 719468

/-- Inverse of `daysFromCivil`: (year, month, day) of a day count. -/
def civilFromDays (z0 : Int) : Int × Int × Int :=
  let z := z0 + 719468
  let era := Int.fdiv z 146097
  let doe := z - era * 146097
  let yoe := Int.fdiv (doe - Int.fdiv doe 1460 + Int.fdiv doe 36524 - Int.fdiv doe 146096) 365
  let y := yoe + era * 400
  let doy := doe - (365 * yoe + Int.fdiv yoe 4 - Int.fdiv yoe 100)
  let mp := Int.fdiv (5 * doy + 2) 153
  let d := doy - Int.fdiv (153 * mp + 2) 5 + 1
  let m := if mp < 10 then mp + 3 else mp - 9
  (if m ≤ 2 then y + 1 else y, m, d)

/-- Day of week of a day count, 0 = Sunday. -/
def dow (z : Int) : Int := Int.emod (z + 4) 7

/-- Day of month of the second Sunday of March. -/
def secondSundayMarch (y : Int) : Int :=
  1 + Int.emod (7 - dow (daysFromCivil y 3 1)) 7 + 7

/-- Day of month of the first Sunday of November. -/
def firstSundayNov (y : Int) : Int :=
  1 + Int.emod (7 - dow (daysFromCivil y 11 1)) 7

/-- UTC offset of `America/Toronto` in minutes at a UTC epoch second
(post-2007 North American DST rule from tzdata). -/
def torontoOffsetMin (t : Int) : Int :=
  let y := (civilFromDays (Int.fdiv t 86400)).1
  let dstStart := daysFromCivil y 3 (secondSundayMarch y) * 86400 + 7 * 3600
  let dstEnd := daysFromCivil y 11 (firstSundayNov y) * 86400 + 6 * 3600
  if dstStart ≤ t ∧ t < dstEnd then -240 else -300

/-- A parsed `%Y-%m-%dT%H:%M:%S%z` timestamp; `offMin` is the UTC offset in
minutes carried by the `%z` part. -/
structure TS where
  y : Int
  mo : Int
  d : Int
  h : Int
  mi : Int
  s : Int
  offMin : Int
deriving DecidableEq, Repr

/-- One decimal digit. -/
def digit? (c : Char) : Option Nat :=
  if c.isDigit then some (c.toNat - 48) else none

/-- Two decimal digits. -/
def num2 (a b : Char) : Option Nat := do
  let x ← digit? a
  let y ← digit? b
  pure (10 * x + y)

/-- The `%z` directive: `Z`, `±HH:MM` or `±HHMM`. -/
def parseOff : List Char → Option Int
  | ['Z'] => some 0
  | [sg, a, b, ':', c, d] => do
    let hh ← num2 a b
    let mm ← num2 c d
    let v : Int := hh * 60 + mm
    if sg = '+' then some v else if sg = '-' then some (-v) else none
  | [sg, a, b, c, d] => do
    let hh ← num2 a b
    let mm ← num2 c d
    let v : Int := hh * 60 + mm
    if sg = '+' then some v else if sg = '-' then some (-v) else none
  | _ => none

/-- `datetime.strptime(time, '%Y-%m-%dT%H:%M:%S%z')`; `none` models the
`ValueError` on a malformed argument. -/
def parseTs (str : String) : Option TS :=
  match str.data with
  | y1 :: y2 :: y3 :: y4 :: '-' :: m1 :: m2 :: '-' :: d1 :: d2 :: 'T' ::
      h1 :: h2 :: ':' :: mi1 :: mi2 :: ':' :: s1 :: s2 :: rest => do
    let a ← digit? y1
    let b ← digit? y2
    let c ← digit? y3
    let dd ← digit? y4
    let mo ← num2 m1 m2
    let d ← num2 d1 d2
    let h ← num2 h1 h2
    let mi ← num2 mi1 mi2
    let s ← num2 s1 s2
    let off ← parseOff rest
    if 1 ≤ mo ∧ mo ≤ 12 ∧ 1 ≤ d ∧ d ≤ 31 ∧ h ≤ 23 ∧ mi ≤ 59 ∧ s ≤ 61 then
      some ⟨1000 * a + 100 * b + 10 * c + dd, mo, d, h, mi, s, off⟩
    else none
  | _ => none

/-- Zero-padded two-digit rendering (`strftime` `%H` etc.). -/
def pad2 (n : Nat) : String :=
  if n < 10 then "0" ++ toString n else toString n

/-- Zero-padded four-digit rendering (`strftime` `%Y`). -/
def pad4 (n : Nat) : String :=
  if n < 10 then "000" ++ toString n
  else if n < 100 then "00" ++ toString n
  else if n < 1000 then "0" ++ toString n
  else toString n

/-- `get_right_format` (source lines 31-36): parse the CLI timestamp, convert
it to `America/Toronto` local time and render `%Y-%m-%d_%H_%M_%S`. -/
def get_right_format (time : String) : Option String :=
  (parseTs time).map fun ts =>
    let utc := daysFromCivil ts.y ts.mo ts.d * 86400
      + (ts.h * 3600 + ts.mi * 60 + ts.s) - ts.offMin * 60
    let loc := utc + torontoOffsetMin utc * 60
    let c := civilFromDays (Int.fdiv loc 86400)
    let sod := (Int.emod loc 86400).toNat
    pad4 c.1.toNat ++ "-" ++ pad2 c.2.1.toNat ++ "-" ++ pad2 c.2.2.toNat ++ "_"
      ++ pad2 (sod / 3600) ++ "_" ++ pad2 (sod % 3600 / 60) ++ "_" ++ pad2 (sod % 60)

/-! ## The data-lake store and `get_max_id_adl` / `push_to_adl` -/

/-- A file in the data lake: the bytes written, plus the table `pd.read_csv`
recovers from them (`none` when the bytes do not parse as the expected
tabular shape).  For files this pipeline writes the round trip is exact. -/
structure StoredFile where
  bytes : String
  parsed : Option Table
deriving DecidableEq, Repr

/-- The data-lake file system: `(full path, file)` pairs in write order. -/
abbrev Store : Type := List (String × StoredFile)

/-- Writing `bytes` at `p`: silently overwrite in place if the path exists
(directory listing order is unchanged), otherwise append. -/
def insertStore (s : Store) (p : String) (f : StoredFile) : Store :=
  if s.any (fun e => e.1 == p) then
    s.map (fun e => if e.1 == p then (p, f) else e)
  else s ++ [(p, f)]

/-- First stored file at path `p`. -/
def lookupStore (s : Store) (p : String) : Option StoredFile :=
  (s.find? (fun e => e.1 == p)).map (·.2)

/-- The `/yinz_cam/{team}/realtime_api/{collection}` directory prefix used by
both `get_max_id_adl` (collection `actions`) and `push_to_adl`. -/
def dirFor (team collection : String) : String :=
  "/yinz_cam/" ++ team ++ "/realtime_api/" ++ collection

/-- The entries of the store that live under a directory, in write order
(the full paths the ADL `listdir` would return). -/
def filesUnder (store : Store) (dir : String) : List (String × StoredFile) :=
  store.filter (fun e => strPref (dir ++ "/") e.1)

/-- The Output Units under the source's actions directory, in write order. -/
def actionFiles (team : String) (store : Store) : List (String × StoredFile) :=
  filesUnder store (dirFor team "actions")

/-- `get_max_id_adl` (source lines 127-145): list the Output Units below the
source's actions directory, sort the paths, open the last one and return the
maximum of its integer id column; `0` when no unit exists.  `.error ()`
models an uncaught exception: unparseable bytes, a missing `id` column, or an
id cell that does not parse as an integer (an empty id column, whose pandas
maximum would be NaN, is also folded into the error case; no claim and no run
of the engine reaches it because every written unit is non-empty). -/
def get_max_id_adl (team : String) (store : Store) : Except Unit Nat :=
  let listFiles := List.insertionSort strLeR ((actionFiles team store).map (·.1))
  match listFiles.getLast? with
  | none => .ok 0
  | some last_file =>
    match lookupStore store last_file with
    | none => .error ()
    | some f =>
      match f.parsed with
      | none => .error ()
      | some df =>
        match idNats df with
        | none => .error ()
        | some ids => if ids.isEmpty then .error () else .ok (maxL ids)

/-- The Output Unit file name `{formatted run timestamp}_{minId}_{maxId}.csv`
(source line 149). -/
def unitName (ft : String) (minAct maxAct : Nat) : String :=
  ft ++ "_" ++ toString minAct ++ "_" ++ toString maxAct ++ ".csv"

/-- `push_to_adl` (source lines 147-153): build the destination path from the
formatted run timestamp and the id range, serialize the table without an
index column, and write the bytes; `none` models the exception raised by
`get_right_format` on a malformed timestamp. -/
def push_to_adl (team : String) (store : Store) (collection : String) (df : Table)
    (currentRunTime : String) (minAct maxAct : Nat) : Option Store :=
  (get_right_format currentRunTime).map fun ft =>
    insertStore store (dirFor team collection ++ "/" ++ unitName ft minAct maxAct)
      ⟨to_csv df, some df⟩

/-! ## `get_data` (source lines 39-124) -/

/-- One parsed API body: the four correlated record sets. -/
structure Page where
  actions : Table
  sessions : Table
  geoip : Table
  hardware : Table
deriving DecidableEq, Repr

/-- Result of one HTTP GET attempt: an exception out of `requests.get`, a
body that `response.json()` cannot parse, or a parsed body. -/
inductive Outcome where
  | transportFail
  | parseFail
  | page (p : Page)
deriving DecidableEq, Repr

/-- The HTTP oracle: attempt counter and `(startId, maxRecords)` request
parameters to the attempt's outcome. -/
def Api : Type := Nat → Nat × Nat → Outcome

/-- The inner retry loop of `get_data` (source lines 57-91): up to `retry`
GET attempts for one page; a transport failure and a parse failure each
consume one attempt from the same budget; the first parsed body is returned.
Returns the content (if any) and the advanced attempt counter. -/
def retryLoop (api : Api) (req : Nat × Nat) (k : Nat) : Nat → Option Page × Nat
  | 0 => (none, k)
  | r + 1 =>
    match api k req with
    | .transportFail => retryLoop api req (k + 1) r
    | .parseFail => retryLoop api req (k + 1) r
    | .page p => (some p, k + 1)

/-- The loop state of `get_data`: the pagination cursor `newMaxId`, the
accumulated record count, the size of the previous page (`maxRecords`,
initially 250), the four per-page table accumulators, plus instrumentation:
the global attempt counter and the trace of issued page requests
`(startId, requested maxRecords, parsed content if any)`. -/
structure FetchState where
  newMaxId : Nat
  value_count : Nat
  maxRecords : Nat
  actions_l : List Table
  sessions_l : List Table
  geoip_l : List Table
  hardware_l : List Table
  attempts : Nat
  trace : List (Nat × Nat × Option Page)
deriving DecidableEq, Repr

/-- Result of the `get_data` pagination loop: final state, an uncaught
exception (missing/unparseable `id` column of a page), or fuel exhaustion. -/
inductive FetchRes where
  | ok (st : FetchState)
  | exn
  | out
deriving DecidableEq, Repr

/-- The page limit `limit = 250` (source line 44). -/
def limit : Nat := 250

/-- The outer pagination loop of `get_data` (source lines 54-112): while the
previous page was full (`maxRecords >= limit`) and the accumulated count is
below `max_value`, request the next page with a 5-attempt retry budget; on a
page with no parseable content, exit the loop keeping what accumulated; on a
non-empty page, advance the cursor to one past the page's maximum id and
append all four record sets. -/
def get_data_loop (api : Api) (max_value : Nat) : Nat → FetchState → FetchRes
  | 0, _ => .out
  | fuel + 1, st =>
    if limit ≤ st.maxRecords ∧ st.value_count < max_value then
      match retryLoop api (st.newMaxId, st.maxRecords) st.attempts 5 with
      | (none, k) =>
        .ok { st with
              attempts := k
              trace := st.trace ++ [(st.newMaxId, st.maxRecords, none)] }
      | (some p, k) =>
        let n := p.actions.rows.length
        let st1 :=
          { st with
            attempts := k
            maxRecords := n
            trace := st.trace ++ [(st.newMaxId, st.maxRecords, some p)] }
        if n = 0 then get_data_loop api max_value fuel st1
        else
          match idNats p.actions with
          | none => .exn
          | some ids =>
            get_data_loop api max_value fuel
              { st1 with
                value_count := st.value_count + n,
                newMaxId := maxL ids + 1,
                actions_l := st.actions_l ++ [p.actions],
                sessions_l := st.sessions_l ++ [p.sessions],
                geoip_l := st.geoip_l ++ [p.geoip],
                hardware_l := st.hardware_l ++ [p.hardware] }
    else .ok st

/-- The initial `get_data` state for a watermark `maxId` (source lines 42-51);
`k0` is the incoming global attempt counter (instrumentation only). -/
def initFetch (maxId k0 : Nat) : FetchState :=
  ⟨maxId + 1, 0, limit, [], [], [], [], k0, []⟩

/-- `get_data` (source lines 39-124). -/
def get_data (maxId : Nat) (api : Api) (max_value : Nat) (fuel k0 : Nat) : FetchRes :=
  get_data_loop api max_value fuel (initFetch maxId k0)

/-- The four accumulated record sets of a run segment. -/
structure Dfs where
  actions : Table
  sessions : Table
  geoip : Table
  hardware : Table
deriving DecidableEq, Repr

/-- `pd.concat(_, axis=0)` for the homogeneous page tables this pipeline
accumulates: header of the first part, rows appended in order. -/
def concatT : List Table → Table
  | [] => ⟨[], []⟩
  | t :: ts => ⟨t.cols, (t :: ts).flatMap (·.rows)⟩

/-- The value `get_data` returns from a final loop state (source lines
116-124): the accumulated count and, when positive, the concatenated sets. -/
def fetchResult (st : FetchState) : Nat × Option Dfs :=
  if st.value_count > 0 then
    (st.value_count,
      some ⟨concatT st.actions_l, concatT st.sessions_l, concatT st.geoip_l,
            concatT st.hardware_l⟩)
  else (0, none)

/-! ## The Run Driver (`main`, source lines 156-303) -/

/-- `MAX_RECORDS_PER_FILE` (source line 28). -/
def MAX_RECORDS_PER_FILE : Nat := 1000000

/-- The normalization step of `main` (source lines 233-248): drop exact
duplicate rows keeping the last occurrence, then project each set onto its
canonical column list.  A failed projection is fatal (`.error ()`, an
uncaught `KeyError`) for the actions, sessions and hardware sets; for the
geoip set the failure is logged and the deduplicated set passes through
unprojected (the bare `except` at source lines 244-247). -/
def normalizeDfs (dfs : Dfs) : Except Unit Dfs :=
  let s := dedupTable dfs.sessions
  let a := dedupTable dfs.actions
  let g := dedupTable dfs.geoip
  let hw := dedupTable dfs.hardware
  match project a actions_cols with
  | none => .error ()
  | some a2 =>
    match project s sessions_cols with
    | none => .error ()
    | some s2 =>
      let g2 := (project g geoip_cols).getD g
      match project hw hardware_cols with
      | none => .error ()
      | some h2 => .ok ⟨a2, s2, g2, h2⟩

/-- The checkpoint-writing loop of `main` (source lines 265-268): push the
four normalized sets, in order, all with the id range of the actions set.
Also returns the `(collection, full path)` pairs written. -/
def push4 (team : String) (store : Store) (nd : Dfs) (t : String) (mn mx : Nat) :
    Option (Store × List (String × String)) := do
  let s1 ← push_to_adl team store "actions" nd.actions t mn mx
  let s2 ← push_to_adl team s1 "sessions" nd.sessions t mn mx
  let s3 ← push_to_adl team s2 "geoip" nd.geoip t mn mx
  let s4 ← push_to_adl team s3 "hardware" nd.hardware t mn mx
  let ft ← get_right_format t
  pure (s4, ["actions", "sessions", "geoip", "hardware"].map fun c =>
    (c, dirFor team c ++ "/" ++ unitName ft mn mx))

/-- Instrumentation record of one driver iteration: the resolved watermark,
the start ids of the issued page requests, the fetched record count, the
integer ids of the accumulated actions set (empty when nothing was fetched)
and the `(collection, path)` pairs written. -/
structure IterLog where
  wm : Nat
  startIds : List Nat
  n : Nat
  ids : List Nat
  written : List (String × String)
deriving DecidableEq, Repr

/-- Result of one driver iteration. -/
inductive IterRes where
  | ok (store : Store) (log : IterLog) (k : Nat)
  | exn
  | out
deriving DecidableEq, Repr

/-- One iteration of the driver loop (source lines 195-268, the plotting
branch excluded as external reporting): resolve the watermark, fetch from
it, and if records arrived coerce the actions id column to integers, take
its min/max, normalize and push the four sets. -/
def mainIter (team t : String) (api : Api) (gfuel : Nat) (store : Store) (k : Nat) :
    IterRes :=
  match get_max_id_adl team store with
  | .error _ => .exn
  | .ok maxId =>
    match get_data maxId api MAX_RECORDS_PER_FILE gfuel k with
    | .out => .out
    | .exn => .exn
    | .ok st =>
      let n := (fetchResult st).1
      if n > 0 then
        match (fetchResult st).2 with
        | none => .exn
        | some dfs =>
          match coerceIds dfs.actions with
          | none => .exn
          | some a0 =>
            match idNats a0 with
            | none => .exn
            | some ids =>
              match normalizeDfs ⟨a0, dfs.sessions, dfs.geoip, dfs.hardware⟩ with
              | .error _ => .exn
              | .ok nd =>
                match push4 team store nd t (minL ids) (maxL ids) with
                | none => .exn
                | some sw =>
                  .ok sw.1 ⟨maxId, st.trace.map (·.1), n, ids, sw.2⟩ st.attempts
      else .ok store ⟨maxId, st.trace.map (·.1), n, [], []⟩ st.attempts

/-- Result of one whole driver run: terminal state `DONE` with the final
store, the per-iteration logs and the final attempt counter; an uncaught
exception; or fuel exhaustion. -/
inductive RunRes where
  | done (store : Store) (logs : List IterLog) (k : Nat)
  | exn
  | out
deriving DecidableEq, Repr

/-- The driver `while num_of_records == MAX_RECORDS_PER_FILE` loop (source
lines 194-303).  `num` starts at the sentinel `1000000`. -/
def mainLoop (team t : String) (api : Api) (gfuel : Nat) :
    Nat → Store → Nat → List IterLog → Nat → RunRes
  | 0, _, _, _, _ => .out
  | fuel + 1, store, num, logs, k =>
    if num = MAX_RECORDS_PER_FILE then
      match mainIter team t api gfuel store k with
      | .exn => .exn
      | .out => .out
      | .ok store2 log k2 =>
        mainLoop team t api gfuel fuel store2 log.n (logs ++ [log]) k2
    else .done store logs k

/-- One invocation of the script for source `team` with CLI timestamp `t`. -/
def runOnce (team t : String) (api : Api) (gfuel fuel : Nat) (store : Store) : RunRes :=
  mainLoop team t api gfuel fuel store MAX_RECORDS_PER_FILE [] 0

/-! ## A deterministic remote source and run histories -/

/-- An actions record with a given id: the id cell followed by blank cells
for the other ten canonical fields. -/
def mkActionRow (i : Nat) : List Val := .nat i :: List.replicate 10 (.str "")

/-- The actions table carrying the given ids. -/
def actionsTable (ids : List Nat) : Table := ⟨actions_cols, ids.map mkActionRow⟩

/-- A one-row auxiliary table with the full canonical schema. -/
def auxRow (cols : List String) : Table := ⟨cols, [cols.map fun _ => Val.str ""]⟩

/-- The remote API over a fixed snapshot `rem` of primary-record ids (sorted
ascending): every attempt succeeds and returns, as the API contract states,
the first `maxRecords` records with id at least `startId` in id order,
together with schema-complete auxiliary sets. -/
def snapshotApi (rem : List Nat) : Api := fun _ req =>
  .page ⟨actionsTable ((rem.filter (req.1 ≤ ·)).take req.2),
         auxRow sessions_cols, auxRow geoip_cols, auxRow hardware_cols⟩

/-- A sequence of runs against the same source: for each run, the CLI
timestamp it was started with and the source's id snapshot at that moment.
Returns the store and iteration logs after each run; `none` when some run
fails to reach `DONE`. -/
def runHistory (team : String) (gfuel fuel : Nat) :
    List (String × List Nat) → Store → Option (List (Store × List IterLog))
  | [], _ => some []
  | (t, rem) :: hs, store =>
    match runOnce team t (snapshotApi rem) gfuel fuel store with
    | .done store2 logs _ => (runHistory team gfuel fuel hs store2).map ((store2, logs) :: ·)
    | _ => none

/-- Strictly increasing list of ids. -/
def sortedLt : List Nat → Bool
  | [] => true
  | [_] => true
  | a :: b :: t => Nat.blt a b && sortedLt (b :: t)

/-- Every run's snapshot lists its ids in strictly increasing order. -/
abbrev histSorted (hist : List (String × List Nat)) : Prop :=
  ∀ pr ∈ hist, sortedLt pr.2 = true

/-- The watermark resolved at the start of a run (first iteration). -/
def wmB (rl : Store × List IterLog) : Nat := (rl.2.headD ⟨0, [], 0, [], []⟩).wm

/-- Total records ingested by a run. -/
def ingested (rl : Store × List IterLog) : Nat := (rl.2.map (·.n)).sum

/-- Whether a stored Output Unit contains the primary id `i`. -/
def unitHasId (e : String × StoredFile) (i : Nat) : Bool :=
  match e.2.parsed with
  | none => false
  | some tb =>
    match idNats tb with
    | none => false
    | some ids => ids.contains i

/-- In how many Output Units under the source's actions directory the
primary id `i` appears. -/
def unitCount (team : String) (store : Store) (i : Nat) : Nat :=
  (actionFiles team store).countP (fun e => unitHasId e i)

/-- The no-gap property exactly as claimed: over every sequence of runs
against the same source (no concurrent writers), for every run that ingested
records, the watermark recomputed after the run exceeds the watermark before
it, every fetch requests ids strictly above the watermark it resolved, and
every primary id in `(watermark_before, watermark_after]` lies in exactly
one Output Unit. -/
def NoGapClaim : Prop :=
  ∀ (team : String) (gfuel fuel : Nat) (hist : List (String × List Nat))
    (rls : List (Store × List IterLog)),
    histSorted hist →
    runHistory team gfuel fuel hist [] = some rls →
    ∀ N (hN : N < rls.length) (hNh : N < hist.length),
      0 < ingested (rls.get ⟨N, hN⟩) →
      ∀ wA, get_max_id_adl team (rls.get ⟨N, hN⟩).1 = .ok wA →
        wmB (rls.get ⟨N, hN⟩) < wA
        ∧ (∀ il ∈ (rls.get ⟨N, hN⟩).2, ∀ s ∈ il.startIds, il.wm < s)
        ∧ (∀ i ∈ (hist.get ⟨N, hNh⟩).2, wmB (rls.get ⟨N, hN⟩) < i → i ≤ wA →
            unitCount team (rls.get ⟨N, hN⟩).1 i = 1)

/-! ## General lemmas about the embedded operations -/

/-- A successful projection carries exactly the selected columns in order. -/
theorem project_cols {t u : Table} {sel : List String} (h : project t sel = some u) :
    u.cols = sel := by
  unfold project at h
  split at h
  · injection h with h'
    subst h'
    rfl
  · cases h

/-- Default-extraction of a normalization result. -/
def getOk : Except Unit Dfs → Dfs
  | .ok nd => nd
  | .error _ => ⟨⟨[], []⟩, ⟨[], []⟩, ⟨[], []⟩, ⟨[], []⟩⟩

/-! ## Claim C1: the no-gap property -/

/-- Two sequential runs of the script with the same CLI timestamp argument:
the source holds ids `{1, 100}` at the first run and has grown (append-only)
to `{1, 100, 101, 200}` by the second. -/
def ceHist : List (String × List Nat) :=
  [("2021-12-23T17:15:09-05:00", [1, 100]),
   ("2021-12-23T17:15:09-05:00", [1, 100, 101, 200])]

/-- C1, counterexample.  The no-gap property fails on the two-run history
`ceHist`: run 2 resolves watermark 100 and ingests ids 101 and 200 into the
unit `2021-12-23_17_15_09_101_200.csv`, but that name sorts lexicographically
before run 1's `2021-12-23_17_15_09_1_100.csv` (`'_' > '0'` at the position
after `_1`), so the watermark recomputed after run 2 is still 100, not
strictly greater than the watermark before run 2. -/
theorem no_gap_counterexample : ¬ NoGapClaim := by
  intro h
  have hc := h "mls_tor" 9 9 ceHist ((runHistory "mls_tor" 9 9 ceHist []).getD [])
    (by decide) (by rfl) 1 (by decide) (by decide) (by decide) 100 (by rfl)
  exact absurd hc.1 (by decide)

/-! ## Claim C7: the column contract of normalization -/

/-- The column contract exactly as claimed: after successful normalization
the actions set carries the 11 fixed columns including `id` in source order,
and the sessions, geoip and hardware sets are projected to fixed column
lists of sizes 14, 24 and 6 respectively. -/
def ColumnContractClaim : Prop :=
  ∀ dfs nd, normalizeDfs dfs = .ok nd →
    nd.actions.cols = actions_cols ∧ actions_cols.length = 11 ∧ "id" ∈ actions_cols ∧
    nd.sessions.cols.length = 14 ∧
    (∀ g2, project (dedupTable dfs.geoip) geoip_cols = some g2 →
      nd.geoip.cols.length = 24) ∧
    nd.hardware.cols.length = 6

/-- A schema-complete run segment with one record per set. -/
def c7dfs : Dfs :=
  ⟨actionsTable [1], auxRow sessions_cols, auxRow geoip_cols, auxRow hardware_cols⟩

/-- C7, counterexample: the sessions column list of the source (line 239) has
15 entries, not 14, so normalizing a schema-complete segment yields a
sessions set with 15 columns. -/
theorem column_contract_counterexample : ¬ ColumnContractClaim := by
  intro h
  have hc := h c7dfs (getOk (normalizeDfs c7dfs)) (by rfl)
  exact absurd hc.2.2.2.1 (by decide)

/-- C7, amended: after successful normalization the actions set carries the
11 fixed columns including `id` in source order, the sessions set is
projected to its fixed 15-column list, the hardware set to its 6-column
list, and the geoip set (when its projection succeeds) to its 24-column
list, each in its fixed order. -/
theorem column_contract_amended :
    ∀ dfs nd, normalizeDfs dfs = .ok nd →
      nd.actions.cols = actions_cols ∧ actions_cols.length = 11 ∧ "id" ∈ actions_cols ∧
      nd.sessions.cols = sessions_cols ∧ sessions_cols.length = 15 ∧
      (∀ g2, project (dedupTable dfs.geoip) geoip_cols = some g2 →
        nd.geoip.cols = geoip_cols ∧ geoip_cols.length = 24) ∧
      nd.hardware.cols = hardware_cols ∧ hardware_cols.length = 6 := by
  intro dfs nd h
  simp only [normalizeDfs] at h
  split at h
  · cases h
  case _ a2 ha2 =>
    split at h
    · cases h
    case _ s2 hs2 =>
      split at h
      · cases h
      case _ h2 hh2 =>
        injection h with h
        subst h
        refine ⟨project_cols ha2, by decide, by decide, project_cols hs2, by decide,
          ?_, project_cols hh2, by decide⟩
        intro g2 hg2
        simp only [hg2, Option.getD_some]
        exact ⟨project_cols hg2, by decide⟩

/-- C7 witness: the amended contract evaluated on a concrete segment. -/
theorem column_contract_witness :
    (getOk (normalizeDfs c7dfs)).sessions.cols = sessions_cols :=
  (column_contract_amended c7dfs (getOk (normalizeDfs c7dfs)) (by rfl)).2.2.2.1

/-! ## Claim C9: idempotent checkpoint write -/

/-- Writing the same file at the same path twice leaves the store exactly as
one write does. -/
theorem insertStore_overwrite (s : Store) (p : String) (f : StoredFile) :
    insertStore (insertStore s p f) p f = insertStore s p f := by
  unfold insertStore
  by_cases h : s.any (fun e => e.1 == p) = true
  · rw [if_pos h]
    have h2 : (s.map (fun e => if e.1 == p then (p, f) else e)).any
        (fun e => e.1 == p) = true := by
      rcases List.any_eq_true.mp h with ⟨e, he, hep⟩
      refine List.any_eq_true.mpr ⟨(p, f), List.mem_map.mpr ⟨e, he, ?_⟩, by simp⟩
      simp [hep]
    rw [if_pos h2, List.map_map]
    refine List.map_congr_left ?_
    intro e _
    by_cases hep : e.1 == p <;> simp [hep, Function.comp]
  · rw [if_neg h]
    have hall : ∀ e ∈ s, (e.1 == p) = false := by
      intro e he
      by_contra hc
      exact h (List.any_eq_true.mpr ⟨e, he, by revert hc; cases e.1 == p <;> simp⟩)
    have h2 : ((s ++ [(p, f)]).any (fun e => e.1 == p)) = true := by
      simp [List.any_append]
    rw [if_pos h2, List.map_append]
    have hs : s.map (fun e => if e.1 == p then (p, f) else e) = s := by
      conv_rhs => rw [← List.map_id s]
      refine List.map_congr_left ?_
      intro e he
      simp [hall e he]
    rw [hs]
    simp

/-- C9: `push_to_adl` is deterministic in its arguments: it builds the
destination path `{dir}/{formatted run timestamp}_{minId}_{maxId}.csv`,
writes the header-inclusive, index-free CSV serialization of the table, and
a second call with the same arguments writes the identical bytes at the
identical path, silently overwriting (the store is unchanged). -/
theorem push_idempotent :
    ∀ (team : String) (store : Store) (collection : String) (df : Table)
      (t : String) (mn mx : Nat) (ft : String),
      get_right_format t = some ft →
      push_to_adl team store collection df t mn mx
        = some (insertStore store (dirFor team collection ++ "/" ++ unitName ft mn mx)
            ⟨to_csv df, some df⟩)
      ∧ (∀ s1, push_to_adl team store collection df t mn mx = some s1 →
          push_to_adl team s1 collection df t mn mx = some s1) := by
  intro team store collection df t mn mx ft hft
  constructor
  · unfold push_to_adl
    rw [hft]
    rfl
  · intro s1 h1
    unfold push_to_adl at h1 ⊢
    rw [hft] at h1 ⊢
    simp only [Option.map_some'] at h1 ⊢
    injection h1 with h1
    subst h1
    rw [insertStore_overwrite]

/-- C9 witness: a concrete checkpoint write, evaluated. -/
theorem push_idempotent_witness :
    push_to_adl "mls_tor" [] "actions" (actionsTable [1]) "2021-12-23T17:15:09-05:00" 1 1
      = some (insertStore []
          (dirFor "mls_tor" "actions" ++ "/" ++ unitName "2021-12-23_17_15_09" 1 1)
          ⟨to_csv (actionsTable [1]), some (actionsTable [1])⟩) :=
  (push_idempotent "mls_tor" [] "actions" (actionsTable [1]) "2021-12-23T17:15:09-05:00"
    1 1 "2021-12-23_17_15_09" (by rfl)).1

/-! ## Claim C6: a corrupt checkpoint is fatal -/

/-- C6: if at least one Output Unit exists under the actions directory and
the selected most-recent unit cannot be read as a table with an integer id
column, `get_max_id_adl` raises (models an uncaught pandas exception
propagating to the caller); in particular it does not return a watermark of
`0`. -/
theorem corrupt_checkpoint_fatal :
    ∀ (team : String) (store : Store) (p : String) (f : StoredFile),
      (List.insertionSort strLeR ((actionFiles team store).map (·.1))).getLast?
        = some p →
      lookupStore store p = some f →
      (f.parsed = none ∨ ∃ tb, f.parsed = some tb ∧ idNats tb = none) →
      get_max_id_adl team store = .error () := by
  intro team store p f hlast hlook hbad
  simp only [get_max_id_adl, hlast, hlook]
  rcases hbad with hb | ⟨tb, htb, hids⟩
  · simp [hb]
  · simp [htb, hids]

/-- A store holding a single, unparseable Output Unit. -/
def c6store : Store :=
  [("/yinz_cam/mls_tor/realtime_api/actions/2021-01-01_00_00_00_1_2.csv",
    ⟨"garbage", none⟩)]

/-- C6 witness: resolving the watermark over a corrupt sole checkpoint. -/
theorem corrupt_checkpoint_witness : get_max_id_adl "mls_tor" c6store = .error () :=
  corrupt_checkpoint_fatal "mls_tor" c6store
    "/yinz_cam/mls_tor/realtime_api/actions/2021-01-01_00_00_00_1_2.csv"
    ⟨"garbage", none⟩ (by rfl) (by rfl) (Or.inl rfl)

/-! ## Claim C5: bounded retry with partial-success preservation -/

/-- The retry loop advances the attempt counter by at most its budget. -/
theorem retryLoop_le (api : Api) (req : Nat × Nat) :
    ∀ n k, (retryLoop api req k n).2 ≤ k + n := by
  intro n
  induction n with
  | zero => intro k; simp [retryLoop]
  | succ n ih =>
    intro k
    simp only [retryLoop]
    cases api k req with
    | transportFail => have := ih (k + 1); dsimp only; omega
    | parseFail => have := ih (k + 1); dsimp only; omega
    | page p => dsimp only; omega

/-- If every attempt in the budget fails (transport or parse, in any mix),
the retry loop consumes exactly the budget and yields no content. -/
theorem retryLoop_exhaust (api : Api) (req : Nat × Nat) :
    ∀ n k, (∀ j, j < n → ∀ p, api (k + j) req ≠ .page p) →
      retryLoop api req k n = (none, k + n) := by
  intro n
  induction n with
  | zero => intro k _; simp [retryLoop]
  | succ n ih =>
    intro k hfail
    simp only [retryLoop]
    cases hk : api k req with
    | page p =>
      exact absurd hk (by simpa using hfail 0 (by omega) p)
    | transportFail =>
      have hrec := ih (k + 1) ?_
      · dsimp only
        rw [hrec]
        congr 1
        omega
      · intro j hj p
        have h2 : k + 1 + j = k + (j + 1) := by omega
        rw [h2]
        exact hfail (j + 1) (by omega) p
    | parseFail =>
      have hrec := ih (k + 1) ?_
      · dsimp only
        rw [hrec]
        congr 1
        omega
      · intro j hj p
        have h2 : k + 1 + j = k + (j + 1) := by omega
        rw [h2]
        exact hfail (j + 1) (by omega) p

/-- If a page's retry budget yields no content, the pagination loop returns
the state accumulated so far (count and all four table accumulators). -/
theorem get_data_keeps_partial (api : Api) (maxv fuel : Nat) (st : FetchState)
    (h1 : limit ≤ st.maxRecords) (h2 : st.value_count < maxv)
    (h3 : (retryLoop api (st.newMaxId, st.maxRecords) st.attempts 5).1 = none) :
    ∃ st', get_data_loop api maxv (fuel + 1) st = .ok st'
      ∧ st'.value_count = st.value_count ∧ st'.actions_l = st.actions_l
      ∧ st'.sessions_l = st.sessions_l ∧ st'.geoip_l = st.geoip_l
      ∧ st'.hardware_l = st.hardware_l := by
  have hr : retryLoop api (st.newMaxId, st.maxRecords) st.attempts 5
      = (none, (retryLoop api (st.newMaxId, st.maxRecords) st.attempts 5).2) := by
    rcases hx : retryLoop api (st.newMaxId, st.maxRecords) st.attempts 5 with ⟨c, k⟩
    rw [hx] at h3
    simp only at h3
    subst h3
    rfl
  refine ⟨{ st with
            attempts := (retryLoop api (st.newMaxId, st.maxRecords) st.attempts 5).2,
            trace := st.trace ++ [(st.newMaxId, st.maxRecords, none)] },
    ?_, rfl, rfl, rfl, rfl, rfl⟩
  simp only [get_data_loop]
  rw [if_pos ⟨h1, h2⟩, hr]

/-- C5: for each page `get_data` makes at most 5 request attempts, transport
failures and JSON-parse failures drawing on the same budget of 5; when a
page's budget is exhausted with no parseable content, the fetch stops
entirely and returns the count and tables accumulated from prior pages
(no exception escapes). -/
theorem bounded_retry_partial :
    (∀ (api : Api) (req : Nat × Nat) (k : Nat), (retryLoop api req k 5).2 ≤ k + 5)
    ∧ (∀ (api : Api) (req : Nat × Nat) (k : Nat),
        (∀ j, j < 5 → ∀ p, api (k + j) req ≠ .page p) →
        retryLoop api req k 5 = (none, k + 5))
    ∧ (∀ (api : Api) (maxv fuel : Nat) (st : FetchState),
        limit ≤ st.maxRecords → st.value_count < maxv →
        (retryLoop api (st.newMaxId, st.maxRecords) st.attempts 5).1 = none →
        ∃ st', get_data_loop api maxv (fuel + 1) st = .ok st'
          ∧ st'.value_count = st.value_count ∧ st'.actions_l = st.actions_l
          ∧ st'.sessions_l = st.sessions_l ∧ st'.geoip_l = st.geoip_l
          ∧ st'.hardware_l = st.hardware_l) :=
  ⟨fun api req k => retryLoop_le api req 5 k,
   fun api req k => retryLoop_exhaust api req 5 k,
   get_data_keeps_partial⟩

/-- C5 witness: five straight transport failures consume the whole budget and
a parse-failing page leaves the accumulators untouched. -/
theorem bounded_retry_partial_witness :
    retryLoop (fun _ _ => Outcome.transportFail) (1, 250) 0 5 = (none, 0 + 5)
    ∧ ∃ st', get_data_loop (fun _ _ => Outcome.parseFail) 1000000 1 (initFetch 0 0)
        = .ok st' ∧ st'.value_count = (initFetch 0 0).value_count
        ∧ st'.actions_l = (initFetch 0 0).actions_l
        ∧ st'.sessions_l = (initFetch 0 0).sessions_l
        ∧ st'.geoip_l = (initFetch 0 0).geoip_l
        ∧ st'.hardware_l = (initFetch 0 0).hardware_l :=
  ⟨ bounded_retry_partial.2.1 (fun _ _ => Outcome.transportFail) (1, 250) 0
      (fun _ _ p h => Outcome.noConfusion h),
   bounded_retry_partial.2.2 (fun _ _ => Outcome.parseFail) 1000000 0 (initFetch 0 0)
      (by decide) (by decide) (by rfl)⟩

/-! ## Claim C8: lenient geoip projection -/

/-- C8: a failed projection of the geoip set leaves the deduplicated set in
place and the run continues, whereas a failed projection of the actions,
sessions or hardware set aborts the run with an uncaught exception. -/
theorem lenient_geoip_projection :
    (∀ (dfs : Dfs) a2 s2 h2,
      project (dedupTable dfs.actions) actions_cols = some a2 →
      project (dedupTable dfs.sessions) sessions_cols = some s2 →
      project (dedupTable dfs.geoip) geoip_cols = none →
      project (dedupTable dfs.hardware) hardware_cols = some h2 →
      normalizeDfs dfs = .ok ⟨a2, s2, dedupTable dfs.geoip, h2⟩)
    ∧ (∀ (dfs : Dfs),
        project (dedupTable dfs.actions) actions_cols = none →
        normalizeDfs dfs = .error ())
    ∧ (∀ (dfs : Dfs) a2,
        project (dedupTable dfs.actions) actions_cols = some a2 →
        project (dedupTable dfs.sessions) sessions_cols = none →
        normalizeDfs dfs = .error ())
    ∧ (∀ (dfs : Dfs) a2 s2,
        project (dedupTable dfs.actions) actions_cols = some a2 →
        project (dedupTable dfs.sessions) sessions_cols = some s2 →
        project (dedupTable dfs.hardware) hardware_cols = none →
        normalizeDfs dfs = .error ()) := by
  refine ⟨?_, ?_, ?_, ?_⟩
  · intro dfs a2 s2 h2 ha hs hg hh
    simp [normalizeDfs, ha, hs, hg, hh]
  · intro dfs ha
    simp [normalizeDfs, ha]
  · intro dfs a2 ha hs
    simp [normalizeDfs, ha, hs]
  · intro dfs a2 s2 ha hs hh
    simp [normalizeDfs, ha, hs, hh]

/-- A segment whose geoip set lacks the canonical columns. -/
def c8dfs : Dfs :=
  ⟨actionsTable [1], auxRow sessions_cols, ⟨["bogus"], [[.str "x"]]⟩,
   auxRow hardware_cols⟩

/-- A segment whose sessions set lacks the canonical columns. -/
def c8dfsBadSessions : Dfs :=
  ⟨actionsTable [1], ⟨["bogus"], [[.str "x"]]⟩, auxRow geoip_cols,
   auxRow hardware_cols⟩

/-- C8 witness: the lenient and the fatal paths on concrete segments. -/
theorem lenient_geoip_projection_witness :
    normalizeDfs c8dfs
      = .ok ⟨(project (dedupTable c8dfs.actions) actions_cols).getD ⟨[], []⟩,
             (project (dedupTable c8dfs.sessions) sessions_cols).getD ⟨[], []⟩,
             dedupTable c8dfs.geoip,
             (project (dedupTable c8dfs.hardware) hardware_cols).getD ⟨[], []⟩⟩
    ∧ normalizeDfs c8dfsBadSessions = .error () :=
  ⟨lenient_geoip_projection.1 c8dfs _ _ _ (by rfl) (by rfl) (by rfl) (by rfl),
   lenient_geoip_projection.2.2.1 c8dfsBadSessions
     ((project (dedupTable c8dfsBadSessions.actions) actions_cols).getD ⟨[], []⟩)
     (by rfl) (by rfl)⟩

/-! ## Claim C10: one shared Output Unit name per segment -/

/-- Characterization of a successful four-way push: the run timestamp
formats, and the four collections are written under one shared file name
built from it and the given id range. -/
theorem push4_spec {team : String} {store : Store} {nd : Dfs} {t : String}
    {mn mx : Nat} {sw : Store × List (String × String)}
    (h : push4 team store nd t mn mx = some sw) :
    ∃ ft, get_right_format t = some ft ∧
      sw.2 = ["actions", "sessions", "geoip", "hardware"].map
        (fun c => (c, dirFor team c ++ "/" ++ unitName ft mn mx)) := by
  cases hg : get_right_format t with
  | none => simp [push4, push_to_adl, hg] at h
  | some ft =>
    refine ⟨ft, rfl, ?_⟩
    simp only [push4, push_to_adl, hg, Option.map_some', Option.bind_eq_bind,
      Option.some_bind] at h
    injection h with h
    subst h
    rfl

/-- Inversion of a record-producing driver iteration: the four files written
share one name, built from the formatted run timestamp and the min/max of
the actions id column. -/
theorem mainIter_written {team t : String} {api : Api} {gfuel : Nat}
    {store : Store} {k : Nat} {store1 : Store} {log : IterLog} {k1 : Nat}
    (h : mainIter team t api gfuel store k = .ok store1 log k1) (hn : 0 < log.n) :
    ∃ ft, get_right_format t = some ft ∧
      log.written = ["actions", "sessions", "geoip", "hardware"].map
        (fun c => (c, dirFor team c ++ "/" ++ unitName ft (minL log.ids) (maxL log.ids))) := by
  unfold mainIter at h
  split at h
  · cases h
  rename_i maxId hmax
  split at h
  · cases h
  · cases h
  rename_i st hst
  simp only at h
  by_cases hpos : (fetchResult st).1 > 0
  · rw [if_pos hpos] at h
    split at h
    · cases h
    rename_i dfs hdfs
    split at h
    · cases h
    rename_i a0 ha0
    split at h
    · cases h
    rename_i ids hids
    split at h
    · cases h
    rename_i nd hnd
    split at h
    · cases h
    rename_i sw hpush
    injection h with h1 h2 h3
    subst h2
    exact push4_spec hpush
  · rw [if_neg hpos] at h
    injection h with h1 h2 h3
    subst h2
    exact absurd hn (by simpa using hpos)

/-- C10: within one run, every record-producing segment writes its four
Output Units (actions, sessions, geoip, hardware) under the identical file
name, composed of the formatted CLI run timestamp — constant across the
segments of the run — and the min and max id of the actions set; distinct
segments of the same run therefore produce names differing only in the
unpadded min/max id components. -/
theorem four_outputs_one_name :
    ∀ (team t : String) (api : Api) (gfuel : Nat) (store : Store) (k : Nat)
      (store1 : Store) (log : IterLog) (k1 : Nat)
      (api2 : Api) (gfuel2 : Nat) (store2 : Store) (k2 : Nat)
      (store3 : Store) (log2 : IterLog) (k3 : Nat),
      mainIter team t api gfuel store k = .ok store1 log k1 → 0 < log.n →
      mainIter team t api2 gfuel2 store2 k2 = .ok store3 log2 k3 → 0 < log2.n →
      ∃ ft, get_right_format t = some ft
        ∧ log.written = ["actions", "sessions", "geoip", "hardware"].map
            (fun c => (c, dirFor team c ++ "/" ++ unitName ft (minL log.ids) (maxL log.ids)))
        ∧ log2.written = ["actions", "sessions", "geoip", "hardware"].map
            (fun c => (c, dirFor team c ++ "/" ++ unitName ft (minL log2.ids) (maxL log2.ids))) := by
  intro team t api gfuel store k store1 log k1 api2 gfuel2 store2 k2 store3 log2 k3
    h1 hn1 h2 hn2
  obtain ⟨ft, hft, hw⟩ := mainIter_written h1 hn1
  obtain ⟨ft2, hft2, hw2⟩ := mainIter_written h2 hn2
  rw [hft] at hft2
  injection hft2 with e
  subst e
  exact ⟨ft, hft, hw, hw2⟩

/-- Extractors of a successful driver iteration, for concrete evaluation. -/
def irStore : IterRes → Store
  | .ok s _ _ => s
  | _ => []

/-- The log of a successful driver iteration. -/
def irLog : IterRes → IterLog
  | .ok _ l _ => l
  | _ => ⟨0, [], 0, [], []⟩

/-- The attempt counter of a successful driver iteration. -/
def irK : IterRes → Nat
  | .ok _ _ k => k
  | _ => 0

/-- C10 witness: two concrete segments of one run, sharing the formatted
timestamp in their Output Unit names. -/
theorem four_outputs_one_name_witness :
    ∃ ft, get_right_format "2021-12-23T17:15:09-05:00" = some ft
      ∧ (irLog (mainIter "mls_tor" "2021-12-23T17:15:09-05:00" (snapshotApi [1, 2]) 5 [] 0)).written
          = ["actions", "sessions", "geoip", "hardware"].map
            (fun c => (c, dirFor "mls_tor" c ++ "/" ++ unitName ft
              (minL (irLog (mainIter "mls_tor" "2021-12-23T17:15:09-05:00" (snapshotApi [1, 2]) 5 [] 0)).ids)
              (maxL (irLog (mainIter "mls_tor" "2021-12-23T17:15:09-05:00" (snapshotApi [1, 2]) 5 [] 0)).ids)))
      ∧ (irLog (mainIter "mls_tor" "2021-12-23T17:15:09-05:00" (snapshotApi [3, 4]) 5 [] 0)).written
          = ["actions", "sessions", "geoip", "hardware"].map
            (fun c => (c, dirFor "mls_tor" c ++ "/" ++ unitName ft
              (minL (irLog (mainIter "mls_tor" "2021-12-23T17:15:09-05:00" (snapshotApi [3, 4]) 5 [] 0)).ids)
              (maxL (irLog (mainIter "mls_tor" "2021-12-23T17:15:09-05:00" (snapshotApi [3, 4]) 5 [] 0)).ids))) :=
  four_outputs_one_name "mls_tor" "2021-12-23T17:15:09-05:00" (snapshotApi [1, 2]) 5 [] 0
    _ _ _ (snapshotApi [3, 4]) 5 [] 0 _ _ _ (by rfl) (by decide) (by rfl) (by decide)

/-! ## Order-theoretic facts about the path comparison -/

/-- Characters with equal code points are equal. -/
theorem char_eq_of_toNat_eq {a b : Char} (h : a.toNat = b.toNat) : a = b := by
  have ha := Char.ofNat_toNat a
  rw [← ha, h, Char.ofNat_toNat]

/-- `lexLt` is irreflexive. -/
theorem lexLt_irrefl : ∀ l : List Char, lexLt l l = false := by
  intro l
  induction l with
  | nil => rfl
  | cons a as ih => simp [lexLt, ih]

/-- `lexLt` is asymmetric. -/
theorem lexLt_asymm : ∀ a b : List Char, lexLt a b = true → lexLt b a = false := by
  intro a
  induction a with
  | nil =>
    intro b h
    cases b with
    | nil => simpa [lexLt] using h
    | cons y ys => simp [lexLt]
  | cons x xs ih =>
    intro b h
    cases b with
    | nil => simpa [lexLt] using h
    | cons y ys =>
      simp only [lexLt] at h ⊢
      by_cases h1 : x.toNat < y.toNat
      · rw [if_neg (by omega), if_pos h1]
      · by_cases h2 : y.toNat < x.toNat
        · rw [if_neg h1, if_pos h2] at h
          exact absurd h (by simp)
        · rw [if_neg h1, if_neg h2] at h
          rw [if_neg h2, if_neg h1]
          exact ih ys h

/-- `lexLt` is transitive. -/
theorem lexLt_trans : ∀ a b c : List Char,
    lexLt a b = true → lexLt b c = true → lexLt a c = true := by
  intro a
  induction a with
  | nil =>
    intro b c hab hbc
    cases b with
    | nil => simpa [lexLt] using hab
    | cons y ys =>
      cases c with
      | nil => simpa [lexLt] using hbc
      | cons z zs => simp [lexLt]
  | cons x xs ih =>
    intro b c hab hbc
    cases b with
    | nil => simpa [lexLt] using hab
    | cons y ys =>
      cases c with
      | nil => simpa [lexLt] using hbc
      | cons z zs =>
        simp only [lexLt] at hab hbc ⊢
        by_cases h1 : x.toNat < y.toNat
        · by_cases h2 : y.toNat < z.toNat
          · rw [if_pos (by omega)]
          · by_cases h3 : z.toNat < y.toNat
            · rw [if_neg h2, if_pos h3] at hbc
              exact absurd hbc (by simp)
            · rw [if_pos (by omega)]
        · by_cases h1' : y.toNat < x.toNat
          · rw [if_neg h1, if_pos h1'] at hab
            exact absurd hab (by simp)
          · rw [if_neg h1, if_neg h1'] at hab
            by_cases h2 : y.toNat < z.toNat
            · rw [if_pos (by omega)]
            · by_cases h3 : z.toNat < y.toNat
              · rw [if_neg h2, if_pos h3] at hbc
                exact absurd hbc (by simp)
              · rw [if_neg h2, if_neg h3] at hbc
                rw [if_neg (by omega), if_neg (by omega)]
                exact ih ys zs hab hbc

/-- Lists that are `lexLt`-incomparable are equal. -/
theorem lexLt_eq_of_not : ∀ a b : List Char,
    lexLt a b = false → lexLt b a = false → a = b := by
  intro a
  induction a with
  | nil =>
    intro b h1 _
    cases b with
    | nil => rfl
    | cons y ys => simp [lexLt] at h1
  | cons x xs ih =>
    intro b h1 h2
    cases b with
    | nil => simp [lexLt] at h2
    | cons y ys =>
      simp only [lexLt] at h1 h2
      by_cases hx : x.toNat < y.toNat
      · rw [if_pos hx] at h1
        exact absurd h1 (by simp)
      · by_cases hy : y.toNat < x.toNat
        · rw [if_pos hy] at h2
          exact absurd h2 (by simp)
        · rw [if_neg hx, if_neg hy] at h1 h2
          rw [char_eq_of_toNat_eq (by omega : x.toNat = y.toNat), ih ys h1 h2]

/-- `strLt` as a relation (Python `<` on the two path strings). -/
def strLtR : String → String → Prop := fun a b => strLt a b = true

instance : DecidableRel strLtR := fun a b => by
  unfold strLtR
  infer_instance

/-- A strict comparison yields the non-strict one. -/
theorem strLtR_le {a b : String} (h : strLtR a b) : strLeR a b := by
  unfold strLtR strLt at h
  unfold strLeR strLe strLt
  rw [lexLt_asymm _ _ h]
  rfl

instance : IsTrans String strLtR :=
  ⟨fun _ _ _ hab hbc => lexLt_trans _ _ _ hab hbc⟩

instance : IsTrans String strLeR := by
  refine ⟨fun a b c hab hbc => ?_⟩
  unfold strLeR strLe strLt at hab hbc ⊢
  simp only [Bool.not_eq_true'] at hab hbc ⊢
  by_cases hab' : lexLt a.data b.data = true
  · by_cases hca : lexLt c.data a.data = true
    · have hcb := lexLt_trans _ _ _ hca hab'
      rw [hcb] at hbc
      exact absurd hbc (by simp)
    · simpa using hca
  · have hdata : a.data = b.data := lexLt_eq_of_not _ _ (by simpa using hab') hab
    rw [hdata]
    exact hbc

instance : IsTotal String strLeR := by
  refine ⟨fun a b => ?_⟩
  unfold strLeR strLe strLt
  by_cases h : lexLt b.data a.data = true
  · right
    simp [lexLt_asymm _ _ h]
  · left
    simpa using h

/-- A chain of strictly increasing paths is sorted for the comparison that
`sorted` uses. -/
theorem chain'_strLt_sorted {l : List String} (h : List.Chain' strLtR l) :
    List.Sorted strLeR l :=
  (List.chain'_iff_pairwise.mp h).imp strLtR_le

/-- Sorting a list of strictly increasing paths leaves it unchanged. -/
theorem insertionSort_eq_self {l : List String} (h : List.Chain' strLtR l) :
    List.insertionSort strLeR l = l :=
  (chain'_strLt_sorted h).insertionSort_eq

/-! ## Claim C2: watermark resolution picks the newest checkpoint -/

/-- The claim exactly as stated: for a non-empty set of Output Units,
`get_max_id_adl` selects the lexicographically greatest path, that path is
the most recently written unit (lexicographic order agrees with write
order), and the maximum of that unit's id column is returned. -/
def NewestCheckpointClaim : Prop :=
  ∀ (team : String) (store : Store) (pLast : String),
    (List.insertionSort strLeR ((actionFiles team store).map (·.1))).getLast?
      = some pLast →
    (((actionFiles team store).map (·.1)).getLast? = some pLast)
    ∧ (∀ f tb ids, lookupStore store pLast = some f → f.parsed = some tb →
        idNats tb = some ids → ids ≠ [] → get_max_id_adl team store = .ok (maxL ids))

/-- Two Output Units of one run written in id order: the unit holding ids
101-200 was written after the unit holding ids 1-100. -/
def c2store : Store :=
  [("/yinz_cam/mls_tor/realtime_api/actions/2021-12-23_17_15_09_1_100.csv",
    ⟨to_csv (actionsTable [1, 100]), some (actionsTable [1, 100])⟩),
   ("/yinz_cam/mls_tor/realtime_api/actions/2021-12-23_17_15_09_101_200.csv",
    ⟨to_csv (actionsTable [101, 200]), some (actionsTable [101, 200])⟩)]

/-- C2, counterexample: with the two units of `c2store`, the
lexicographically greatest path is `..._1_100.csv` (at the first position
after the shared prefix `_1`, `'_'` sorts above `'0'`), yet the most
recently written unit is `..._101_200.csv`: lexicographic order over the
naming scheme does not agree with write order, because the id components
are not fixed-width. -/
theorem newest_checkpoint_counterexample : ¬ NewestCheckpointClaim := by
  intro h
  have hc := (h "mls_tor" c2store
    "/yinz_cam/mls_tor/realtime_api/actions/2021-12-23_17_15_09_1_100.csv"
    (by rfl)).1
  exact absurd hc (by decide)

/-- C2, amended: `get_max_id_adl` selects the lexicographically greatest
path and returns the maximum of that unit's id column; the selected unit is
moreover the most recently written one provided the units were written with
strictly lexicographically increasing names (as holds when formatted run
timestamps strictly increase and each run writes at most one unit). -/
theorem newest_checkpoint_amended :
    ∀ (team : String) (store : Store) (pLast : String),
      (List.insertionSort strLeR ((actionFiles team store).map (·.1))).getLast?
        = some pLast →
      (∀ f tb ids, lookupStore store pLast = some f → f.parsed = some tb →
          idNats tb = some ids → ids ≠ [] → get_max_id_adl team store = .ok (maxL ids))
      ∧ (List.Chain' strLtR ((actionFiles team store).map (·.1)) →
          ((actionFiles team store).map (·.1)).getLast? = some pLast) := by
  intro team store pLast hlast
  constructor
  · intro f tb ids hf htb hids hne
    simp only [get_max_id_adl, hlast, hf, htb, hids]
    simp [List.isEmpty_iff, hne]
  · intro hchain
    rw [← insertionSort_eq_self hchain]
    exact hlast

/-- A store with one well-formed Output Unit. -/
def c2wstore : Store :=
  [("/yinz_cam/mls_tor/realtime_api/actions/2021-12-23_17_15_09_1_100.csv",
    ⟨to_csv (actionsTable [1, 100]), some (actionsTable [1, 100])⟩)]

/-- C2 witness: the amended statement evaluated on a one-unit store. -/
theorem newest_checkpoint_amended_witness :
    get_max_id_adl "mls_tor" c2wstore = .ok (maxL [1, 100])
    ∧ ((actionFiles "mls_tor" c2wstore).map (·.1)).getLast?
        = some "/yinz_cam/mls_tor/realtime_api/actions/2021-12-23_17_15_09_1_100.csv" :=
  ⟨(newest_checkpoint_amended "mls_tor" c2wstore
      "/yinz_cam/mls_tor/realtime_api/actions/2021-12-23_17_15_09_1_100.csv"
      (by rfl)).1 _ (actionsTable [1, 100]) [1, 100] (by rfl) (by rfl) (by rfl)
      (by decide),
   (newest_checkpoint_amended "mls_tor" c2wstore
      "/yinz_cam/mls_tor/realtime_api/actions/2021-12-23_17_15_09_1_100.csv"
      (by rfl)).2 (by
        have he : (actionFiles "mls_tor" c2wstore).map (·.1)
            = ["/yinz_cam/mls_tor/realtime_api/actions/2021-12-23_17_15_09_1_100.csv"] := by
          rfl
        rw [he]
        exact List.chain'_singleton _)⟩

/-! ## Claim C3: Run Driver termination -/

/-- The stub API of the termination property: exactly 250 records (the page
limit) on each of the first two calls, then a page with 0 records. -/
def c3api : Api := fun k req =>
  if k < 2 then
    .page ⟨actionsTable (List.range' req.1 250), auxRow sessions_cols,
           auxRow geoip_cols, auxRow hardware_cols⟩
  else
    .page ⟨actionsTable [], auxRow sessions_cols, auxRow geoip_cols,
           auxRow hardware_cols⟩

/-- Whether a run reached its terminal state. -/
def rrIsDone : RunRes → Bool
  | .done _ _ _ => true
  | _ => false

/-- The final attempt counter (total page requests issued) of a run. -/
def rrK : RunRes → Nat
  | .done _ _ k => k
  | _ => 0

/-- The number of driver iterations of a run. -/
def rrIters : RunRes → Nat
  | .done _ l _ => l.length
  | _ => 0

/-- A completed driver loop extends its log list, and strictly so when it
entered with the ceiling-equal record count. -/
theorem mainLoop_logs_grow :
    ∀ (team t : String) (api : Api) (gfuel fuel : Nat) (store : Store)
      (num : Nat) (logs : List IterLog) (k : Nat) (s' : Store)
      (l' : List IterLog) (k' : Nat),
      mainLoop team t api gfuel fuel store num logs k = .done s' l' k' →
      ∃ suff, l' = logs ++ suff ∧ (num = MAX_RECORDS_PER_FILE → suff ≠ []) := by
  intro team t api gfuel fuel
  induction fuel with
  | zero =>
    intro store num logs k s' l' k' h
    simp [mainLoop] at h
  | succ fuel ih =>
    intro store num logs k s' l' k' h
    simp only [mainLoop] at h
    by_cases hm : num = MAX_RECORDS_PER_FILE
    · rw [if_pos hm] at h
      cases hit : mainIter team t api gfuel store k with
      | exn => rw [hit] at h; simp at h
      | out => rw [hit] at h; simp at h
      | ok store2 log k2 =>
        rw [hit] at h
        obtain ⟨suff, hsuf, _⟩ := ih _ _ _ _ _ _ _ h
        exact ⟨log :: suff, by simpa using hsuf, fun _ => by simp⟩
    · rw [if_neg hm] at h
      injection h with h1 h2 h3
      exact ⟨[], by simp [h2], fun hc => absurd hc hm⟩

/-- C3: the driver loop performs another resolve/fetch/normalize/checkpoint
iteration exactly when the previous fetch returned a count equal to
`MAX_RECORDS_PER_FILE = 1000000` — any other count makes the loop terminate
at once with no further iteration, while a ceiling-equal count forces at
least one more iteration — and, with a stub API returning exactly 250
records (the page limit) on each of 2 calls and then 0 records, exactly 3
page requests are issued, a single driver iteration runs, and the driver
reaches its normal terminal state. -/
theorem driver_termination :
    (∀ (team t : String) (api : Api) (gfuel fuel : Nat) (store : Store)
       (num : Nat) (logs : List IterLog) (k : Nat),
       num ≠ MAX_RECORDS_PER_FILE →
       mainLoop team t api gfuel (fuel + 1) store num logs k = .done store logs k)
    ∧ (∀ (team t : String) (api : Api) (gfuel fuel : Nat) (store : Store)
         (logs : List IterLog) (k : Nat) (s' : Store) (l' : List IterLog) (k' : Nat),
         mainLoop team t api gfuel fuel store MAX_RECORDS_PER_FILE logs k
           = .done s' l' k' →
         logs.length < l'.length)
    ∧ rrIsDone (runOnce "mls_tor" "2021-12-23T17:15:09-05:00" c3api 9 9 []) = true
    ∧ rrK (runOnce "mls_tor" "2021-12-23T17:15:09-05:00" c3api 9 9 []) = 3
    ∧ rrIters (runOnce "mls_tor" "2021-12-23T17:15:09-05:00" c3api 9 9 []) = 1 := by
  refine ⟨?_, ?_, ?_, ?_, ?_⟩
  · intro team t api gfuel fuel store num logs k hnum
    simp only [mainLoop]
    rw [if_neg hnum]
  · intro team t api gfuel fuel store logs k s' l' k' h
    obtain ⟨suff, hsuf, hne⟩ := mainLoop_logs_grow _ _ _ _ _ _ _ _ _ _ _ _ h
    subst hsuf
    have := hne rfl
    cases suff with
    | nil => exact absurd rfl this
    | cons a as => simp
  · exact (by set_option maxRecDepth 1000000 in rfl)
  · exact (by set_option maxRecDepth 1000000 in rfl)
  · exact (by set_option maxRecDepth 1000000 in rfl)

/-- C3 witness: the immediate-termination direction evaluated concretely. -/
theorem driver_termination_witness :
    mainLoop "mls_tor" "x" c3api 1 1 [] 5 [] 0 = .done [] [] 0 :=
  driver_termination.1 "mls_tor" "x" c3api 1 0 [] 5 [] 0 (by decide)

/-! ## Claim C4: pagination cursor and stop conditions -/

/-- The primary-record count a logged page request returned (0 for a request
whose retries were exhausted). -/
def entryLen (e : Nat × Nat × Option Page) : Nat :=
  match e.2.2 with
  | some p => p.actions.rows.length
  | none => 0

/-- The table a logged page contributed to one of the four accumulators
(nothing for a failed or empty page). -/
def entryTab (f : Page → Table) (e : Nat × Nat × Option Page) : Option Table :=
  match e.2.2 with
  | some p => if p.actions.rows.length = 0 then none else some (f p)
  | none => none

/-- Invariant tying a fetch state to its request trace: the first request
starts one past the watermark and asks for the page limit, every further
request starts one past the maximum id of the previous (necessarily
successful and non-empty) page, the accumulators hold exactly the non-empty
pages' tables, the count is the sum of the page sizes, and every non-final
page was full while the count was still below the requested maximum. -/
structure FetchInv (maxId maxv : Nat) (st : FetchState) : Prop where
  head : ∀ e, st.trace.head? = some e → e.1 = maxId + 1 ∧ e.2.1 = limit
  chain : ∀ i e1 e2, st.trace[i]? = some e1 → st.trace[i + 1]? = some e2 →
    ∃ p ids, e1.2.2 = some p ∧ idNats p.actions = some ids ∧ p.actions.rows ≠ []
      ∧ e2.1 = maxL ids + 1 ∧ e2.2.1 = p.actions.rows.length
  accA : st.actions_l = st.trace.filterMap (entryTab (·.actions))
  accS : st.sessions_l = st.trace.filterMap (entryTab (·.sessions))
  accG : st.geoip_l = st.trace.filterMap (entryTab (·.geoip))
  accH : st.hardware_l = st.trace.filterMap (entryTab (·.hardware))
  count : st.value_count = (st.trace.map entryLen).sum
  nonfinal : ∀ i e, st.trace[i]? = some e → i + 1 < st.trace.length →
    limit ≤ entryLen e ∧ ((st.trace.take (i + 1)).map entryLen).sum < maxv

/-- Link between a loop-entry state and its last logged page: either nothing
was requested yet and the cursor is one past the watermark with a full
`maxRecords`, or the last logged request succeeded, `maxRecords` is its
page size, and (when non-empty) the cursor points one past its maximum id. -/
def FetchLink (maxId : Nat) (st : FetchState) : Prop :=
  (st.trace = [] ∧ st.newMaxId = maxId + 1 ∧ st.maxRecords = limit)
  ∨ (∃ e p, st.trace.getLast? = some e ∧ e.2.2 = some p
      ∧ st.maxRecords = p.actions.rows.length
      ∧ (p.actions.rows ≠ [] → ∃ ids, idNats p.actions = some ids
          ∧ st.newMaxId = maxL ids + 1))

/-- Appending the entry of a request issued under a true guard preserves the
positional trace properties. -/
theorem trace_extend {maxId maxv : Nat} {st : FetchState}
    (hinv : FetchInv maxId maxv st) (hlink : FetchLink maxId st)
    (hg1 : limit ≤ st.maxRecords) (hg2 : st.value_count < maxv)
    (c : Option Page) :
    (∀ e, (st.trace ++ [(st.newMaxId, st.maxRecords, c)]).head? = some e →
      e.1 = maxId + 1 ∧ e.2.1 = limit)
    ∧ (∀ i e1 e2, (st.trace ++ [(st.newMaxId, st.maxRecords, c)])[i]? = some e1 →
        (st.trace ++ [(st.newMaxId, st.maxRecords, c)])[i + 1]? = some e2 →
        ∃ p ids, e1.2.2 = some p ∧ idNats p.actions = some ids ∧ p.actions.rows ≠ []
          ∧ e2.1 = maxL ids + 1 ∧ e2.2.1 = p.actions.rows.length)
    ∧ (∀ i e, (st.trace ++ [(st.newMaxId, st.maxRecords, c)])[i]? = some e →
        i + 1 < (st.trace ++ [(st.newMaxId, st.maxRecords, c)]).length →
        limit ≤ entryLen e
          ∧ (((st.trace ++ [(st.newMaxId, st.maxRecords, c)]).take (i + 1)).map
              entryLen).sum < maxv) := by
  have hlim : 0 < limit := by decide
  refine ⟨?_, ?_, ?_⟩
  · intro e he
    cases htr : st.trace with
    | nil =>
      rw [htr] at he
      simp only [List.nil_append, List.head?_cons, Option.some.injEq] at he
      subst he
      rcases hlink with ⟨_, hnm, hmr⟩ | ⟨e0, p0, hlast, _, _, _⟩
      · exact ⟨hnm, hmr⟩
      · rw [htr] at hlast
        simp at hlast
    | cons a l =>
      rw [htr] at he
      rw [List.cons_append, List.head?_cons] at he
      injection he with he
      subst he
      exact hinv.head a (by rw [htr]; rfl)
  · intro i e1 e2 h1 h2
    rcases Nat.lt_trichotomy (i + 1) st.trace.length with hi | hi | hi
    · rw [List.getElem?_append_left (by omega)] at h1 h2
      exact hinv.chain i e1 e2 h1 h2
    · rw [List.getElem?_append_left (by omega)] at h1
      rw [hi, List.getElem?_concat_length] at h2
      injection h2 with h2
      subst h2
      rcases hlink with ⟨htr, _, _⟩ | ⟨e0, p0, hlast, hp0, hmr, hcond⟩
      · rw [htr] at hi
        simp at hi
      · have hrows : p0.actions.rows ≠ [] := by
          intro hnil
          rw [hnil] at hmr
          simp only [List.length_nil] at hmr
          omega
        obtain ⟨ids, hids, hnm⟩ := hcond hrows
        have he1 : e0 = e1 := by
          have hge := List.getLast?_eq_getElem? st.trace
          rw [hge] at hlast
          have hidx : st.trace.length - 1 = i := by omega
          rw [hidx, h1] at hlast
          injection hlast with hlast
          exact hlast.symm
        rw [he1] at hp0
        exact ⟨p0, ids, hp0, hids, hrows, by simpa using hnm, by simpa using hmr⟩
    · have : (st.trace ++ [(st.newMaxId, st.maxRecords, c)]).length ≤ i + 1 := by
        rw [List.length_append]
        simp only [List.length_singleton]
        omega
      rw [List.getElem?_eq_none this] at h2
      cases h2
  · intro i e h1 h2
    rw [List.length_append, List.length_singleton] at h2
    have hilt : i < st.trace.length := by omega
    rw [List.getElem?_append_left hilt] at h1
    rcases Nat.lt_or_ge (i + 1) st.trace.length with hi | hi
    · have hold := hinv.nonfinal i e h1 hi
      rw [List.take_append_of_le_length (by omega)]
      exact hold
    · have hieq : i + 1 = st.trace.length := by omega
      rcases hlink with ⟨htr, _, _⟩ | ⟨e0, p0, hlast, hp0, hmr, _⟩
      · rw [htr] at hilt
        simp at hilt
      · have he : e0 = e := by
          have hge := List.getLast?_eq_getElem? st.trace
          rw [hge] at hlast
          have hidx : st.trace.length - 1 = i := by omega
          rw [hidx, h1] at hlast
          injection hlast with hlast
          exact hlast.symm
        rw [he] at hp0
        constructor
        · simp only [entryLen, hp0]
          omega
        · rw [List.take_append_of_le_length (by omega), hieq, List.take_length]
          rw [← hinv.count]
          exact hg2

/-- The pagination loop preserves the trace invariant, and under an
always-successful API a final state is final exactly because its last page
was short or the accumulated count reached the requested maximum. -/
theorem get_data_loop_invariant :
    ∀ (api : Api) (maxv fuel : Nat) (st st' : FetchState) (maxId : Nat),
      FetchInv maxId maxv st → FetchLink maxId st →
      get_data_loop api maxv fuel st = .ok st' →
      FetchInv maxId maxv st'
      ∧ ((∀ k req, ∃ p, api k req = .page p) →
          st'.maxRecords < limit ∨ maxv ≤ st'.value_count) := by
  intro api maxv fuel
  induction fuel with
  | zero =>
    intro st st' maxId _ _ h
    simp [get_data_loop] at h
  | succ fuel ih =>
    intro st st' maxId hinv hlink h
    simp only [get_data_loop] at h
    by_cases hg : limit ≤ st.maxRecords ∧ st.value_count < maxv
    case neg =>
      rw [if_neg hg] at h
      injection h with h
      subst h
      exact ⟨hinv, fun _ => by omega⟩
    case pos =>
      rw [if_pos hg] at h
      obtain ⟨hg1, hg2⟩ := hg
      obtain ⟨hhead, hchain, hnf⟩ := trace_extend hinv hlink hg1 hg2
        (retryLoop api (st.newMaxId, st.maxRecords) st.attempts 5).1
      rcases hr : retryLoop api (st.newMaxId, st.maxRecords) st.attempts 5 with ⟨c, k⟩
      rw [hr] at h
      rw [hr] at hhead hchain hnf
      cases c with
      | none =>
        injection h with h
        subst h
        constructor
        · refine ⟨hhead, hchain, ?_, ?_, ?_, ?_, ?_, hnf⟩ <;>
            simp only [List.filterMap_append, List.map_append, List.sum_append] <;>
            simp [entryTab, entryLen, hinv.accA, hinv.accS, hinv.accG, hinv.accH,
              hinv.count]
        · intro hall
          obtain ⟨p, hp⟩ := hall st.attempts (st.newMaxId, st.maxRecords)
          have : retryLoop api (st.newMaxId, st.maxRecords) st.attempts 5
              = (some p, st.attempts + 1) := by
            simp [retryLoop, hp]
          rw [this] at hr
          injection hr with hr1 hr2
          cases hr1
      | some p =>
        dsimp only at h
        by_cases hn : p.actions.rows.length = 0
        · rw [if_pos hn] at h
          have hrows : p.actions.rows = [] := List.length_eq_zero.mp hn
          refine ih _ st' maxId ⟨hhead, hchain, ?_, ?_, ?_, ?_, ?_, hnf⟩ ?_ h
          · simp [List.filterMap_append, entryTab, hn, hinv.accA]
          · simp [List.filterMap_append, entryTab, hn, hinv.accS]
          · simp [List.filterMap_append, entryTab, hn, hinv.accG]
          · simp [List.filterMap_append, entryTab, hn, hinv.accH]
          · simp [List.map_append, List.sum_append, entryLen, hn, hinv.count]
          · right
            exact ⟨(st.newMaxId, st.maxRecords, some p), p, List.getLast?_concat _,
              rfl, by simpa using hn.symm, fun hc => absurd hrows hc⟩
        · rw [if_neg hn] at h
          rcases hids : idNats p.actions with _ | ids
          · rw [hids] at h
            cases h
          · rw [hids] at h
            refine ih _ st' maxId ⟨hhead, hchain, ?_, ?_, ?_, ?_, ?_, hnf⟩ ?_ h
            · simp [List.filterMap_append, entryTab, hn, hinv.accA]
            · simp [List.filterMap_append, entryTab, hn, hinv.accS]
            · simp [List.filterMap_append, entryTab, hn, hinv.accG]
            · simp [List.filterMap_append, entryTab, hn, hinv.accH]
            · simp [List.map_append, List.sum_append, entryLen, hinv.count]
            · right
              exact ⟨(st.newMaxId, st.maxRecords, some p), p, List.getLast?_concat _,
                rfl, rfl, fun _ => ⟨ids, hids, rfl⟩⟩

/-- C4: `get_data(maxId, ...)` issues its first page request with
`startId = maxId + 1` (asking for the page limit); after every page whose
actions set is non-empty the next request's `startId` is one past the
maximum id of that page's actions set, and all four record-set tables of
exactly the non-empty pages are appended to the accumulators in order; the
accumulated count is the sum of the page sizes; every page except the last
was issued only while the previous page was full (at least the page limit
of 250) and the accumulated count was below `max_value`; and, when every
attempt succeeds, pagination stops exactly because the final page's actions
count fell below 250 or the accumulated count reached `max_value`. -/
theorem pagination_cursor :
    ∀ (maxId : Nat) (api : Api) (maxv fuel k0 : Nat) (st : FetchState),
      get_data maxId api maxv fuel k0 = .ok st →
      (∀ e, st.trace.head? = some e → e.1 = maxId + 1 ∧ e.2.1 = limit)
      ∧ (∀ i e1 e2, st.trace[i]? = some e1 → st.trace[i + 1]? = some e2 →
          ∃ p ids, e1.2.2 = some p ∧ idNats p.actions = some ids
            ∧ p.actions.rows ≠ [] ∧ e2.1 = maxL ids + 1)
      ∧ st.actions_l = st.trace.filterMap (entryTab (·.actions))
      ∧ st.sessions_l = st.trace.filterMap (entryTab (·.sessions))
      ∧ st.geoip_l = st.trace.filterMap (entryTab (·.geoip))
      ∧ st.hardware_l = st.trace.filterMap (entryTab (·.hardware))
      ∧ st.value_count = (st.trace.map entryLen).sum
      ∧ (∀ i e, st.trace[i]? = some e → i + 1 < st.trace.length →
          limit ≤ entryLen e ∧ ((st.trace.take (i + 1)).map entryLen).sum < maxv)
      ∧ ((∀ k req, ∃ p, api k req = .page p) →
          st.maxRecords < limit ∨ maxv ≤ st.value_count) := by
  intro maxId api maxv fuel k0 st h
  have hinv0 : FetchInv maxId maxv (initFetch maxId k0) := by
    constructor <;> intros <;> simp_all [initFetch]
  have hlink0 : FetchLink maxId (initFetch maxId k0) := Or.inl ⟨rfl, rfl, rfl⟩
  obtain ⟨hinv, hstop⟩ := get_data_loop_invariant api maxv fuel _ st maxId hinv0 hlink0 h
  exact ⟨hinv.head, fun i e1 e2 h1 h2 => by
      obtain ⟨p, ids, hp, hids, hne, hcur, _⟩ := hinv.chain i e1 e2 h1 h2
      exact ⟨p, ids, hp, hids, hne, hcur⟩,
    hinv.accA, hinv.accS, hinv.accG, hinv.accH, hinv.count, hinv.nonfinal, hstop⟩

/-- The final state of a fetch, for concrete evaluation. -/
def frOk : FetchRes → FetchState
  | .ok st => st
  | _ => initFetch 0 0

/-- C4 witness: a concrete single-page fetch against a snapshot source. -/
theorem pagination_cursor_witness :
    (frOk (get_data 5 (snapshotApi [6]) 1000000 9 0)).maxRecords < limit
    ∨ 1000000 ≤ (frOk (get_data 5 (snapshotApi [6]) 1000000 9 0)).value_count :=
  (pagination_cursor 5 (snapshotApi [6]) 1000000 9 0
      (frOk (get_data 5 (snapshotApi [6]) 1000000 9 0)) (by rfl)).2.2.2.2.2.2.2.2
    (fun k req => ⟨_, rfl⟩)

/-! ## Toolbox for the amended no-gap theorem: ordered id lists -/

/-- `sortedLt` is chain sortedness. -/
theorem sortedLt_iff_chain : ∀ l : List Nat, sortedLt l = true ↔ List.Chain' (· < ·) l := by
  intro l
  induction l with
  | nil => simp [sortedLt]
  | cons a t ih =>
    cases t with
    | nil => simp [sortedLt]
    | cons b t2 =>
      rw [sortedLt, Bool.and_eq_true, List.chain'_cons, ← ih]
      constructor
      · rintro ⟨h1, h2⟩
        exact ⟨by simpa [Nat.blt_eq] using h1, h2⟩
      · rintro ⟨h1, h2⟩
        exact ⟨by simpa [Nat.blt_eq] using h1, h2⟩

/-- `sortedLt` is pairwise strict sortedness. -/
theorem sortedLt_iff_pairwise (l : List Nat) :
    sortedLt l = true ↔ List.Pairwise (· < ·) l := by
  rw [sortedLt_iff_chain, List.chain'_iff_pairwise]

/-- A fold of `Nat.max` dominates its seed. -/
theorem foldl_max_le_init : ∀ (l : List Nat) (a : Nat), a ≤ l.foldl Nat.max a := by
  intro l
  induction l with
  | nil => intro a; simp
  | cons x t ih => intro a; exact le_trans (Nat.le_max_left a x) (ih (Nat.max a x))

/-- Every member is at most the maximum. -/
theorem le_maxL_of_mem : ∀ {l : List Nat} {x : Nat}, x ∈ l → x ≤ maxL l := by
  have H : ∀ (l : List Nat) (a x : Nat), x ∈ l → x ≤ l.foldl Nat.max a := by
    intro l
    induction l with
    | nil => intro a x hx; cases hx
    | cons y t ih =>
      intro a x hx
      rcases List.mem_cons.mp hx with rfl | hx
      · exact le_trans (Nat.le_max_right a x) (foldl_max_le_init t _)
      · exact ih _ x hx
  intro l x hx
  exact H l 0 x hx

/-- The maximum of a non-empty list is one of its members. -/
theorem maxL_mem : ∀ {l : List Nat}, l ≠ [] → maxL l ∈ l := by
  have H : ∀ (l : List Nat) (a : Nat), l.foldl Nat.max a = a ∨ l.foldl Nat.max a ∈ l := by
    intro l
    induction l with
    | nil => intro a; left; rfl
    | cons x t ih =>
      intro a
      rcases ih (Nat.max a x) with h | h
      · rw [List.foldl_cons, h]
        have hmx : Nat.max a x = max a x := rfl
        rcases max_choice a x with hm | hm
        · left; rw [hmx, hm]
        · right; rw [hmx, hm]; exact List.mem_cons_self x t
      · right
        rw [List.foldl_cons]
        exact List.mem_cons_of_mem x h
  intro l hl
  rcases H l 0 with h | h
  · cases l with
    | nil => exact absurd rfl hl
    | cons y t =>
      have hy : y ≤ maxL (y :: t) := le_maxL_of_mem (List.mem_cons_self y t)
      have h0 : maxL (y :: t) = 0 := h
      rw [h0] at hy ⊢
      rw [Nat.le_zero.mp hy] at *
      exact List.mem_cons_self 0 t
  · exact h

/-- Elements of the `take` part precede elements of the `drop` part of a
strictly sorted list. -/
theorem sorted_take_drop {f : List Nat} (hf : List.Pairwise (· < ·) f) (n : Nat) :
    ∀ x ∈ f.take n, ∀ y ∈ f.drop n, x < y := by
  rw [← List.take_append_drop n f] at hf
  exact (List.pairwise_append.mp hf).2.2

/-- The records with identifier beyond a page's maximum are exactly the
records the pagination cursor has not yet collected. -/
theorem filter_ge_drop {rem : List Nat} (hrem : List.Pairwise (· < ·) rem) (c n : Nat)
    (hne : (rem.filter (fun i => c ≤ i)).take n ≠ []) :
    rem.filter (fun i => maxL ((rem.filter (fun i => c ≤ i)).take n) + 1 ≤ i)
      = (rem.filter (fun i => c ≤ i)).drop n := by
  have hfp : List.Pairwise (· < ·) (rem.filter (fun i => c ≤ i)) := hrem.filter _
  have hMpg : maxL ((rem.filter (fun i => c ≤ i)).take n)
      ∈ (rem.filter (fun i => c ≤ i)).take n := maxL_mem hne
  have hMf : maxL ((rem.filter (fun i => c ≤ i)).take n) ∈ rem.filter (fun i => c ≤ i) :=
    List.mem_of_mem_take hMpg
  have hcM : c ≤ maxL ((rem.filter (fun i => c ≤ i)).take n) := by
    have := List.of_mem_filter hMf
    simpa using this
  set M := maxL ((rem.filter (fun i => c ≤ i)).take n) with hMdef
  have h1 : rem.filter (fun i => M + 1 ≤ i)
      = (rem.filter (fun i => c ≤ i)).filter (fun i => M + 1 ≤ i) := by
    rw [List.filter_filter]
    refine (List.filter_congr ?_).symm
    intro a _
    by_cases h : M + 1 ≤ a
    · have hca : c ≤ a := by omega
      simp [h, hca]
    · simp [h]
  rw [h1]
  have hsplit : (rem.filter (fun i => c ≤ i)).filter (fun i => M + 1 ≤ i)
      = ((rem.filter (fun i => c ≤ i)).take n).filter (fun i => M + 1 ≤ i)
        ++ ((rem.filter (fun i => c ≤ i)).drop n).filter (fun i => M + 1 ≤ i) := by
    rw [← List.filter_append, List.take_append_drop]
  rw [hsplit]
  have hta : ((rem.filter (fun i => c ≤ i)).take n).filter (fun i => M + 1 ≤ i) = [] := by
    rw [List.filter_eq_nil_iff]
    intro a ha
    have := le_maxL_of_mem ha
    simp only [decide_eq_true_eq]
    omega
  have hdr : ((rem.filter (fun i => c ≤ i)).drop n).filter (fun i => M + 1 ≤ i)
      = (rem.filter (fun i => c ≤ i)).drop n := by
    rw [List.filter_eq_self]
    intro a ha
    have := sorted_take_drop hfp n _ hMpg a ha
    simp only [decide_eq_true_eq]
    omega
  rw [hta, hdr, List.nil_append]

/-! ## Toolbox: the snapshot page tables -/

/-- Parsing the id column back out of an actions table. -/
theorem mapM_id_actionRows : ∀ ids : List Nat,
    mapOpt (fun r => valToNat (r.getD 0 (.str ""))) (ids.map mkActionRow) = some ids := by
  intro ids
  induction ids with
  | nil => rfl
  | cons i t ih =>
    simp only [List.map_cons, mapOpt]
    rw [ih]
    rfl

/-- `df.id.astype(int)` of an actions table recovers exactly its ids. -/
theorem idNats_actionsTable (ids : List Nat) : idNats (actionsTable ids) = some ids := by
  have hidx : (actionsTable ids).cols.findIdx? (· == "id") = some 0 := rfl
  unfold idNats
  rw [hidx]
  exact mapM_id_actionRows ids

/-- Coercing the rows of an actions table leaves them unchanged. -/
theorem mapOpt_coerce_actionRows : ∀ ids : List Nat,
    mapOpt (fun r => (valToNat (r.getD 0 (.str ""))).map (fun n => r.set 0 (.nat n)))
      (ids.map mkActionRow) = some (ids.map mkActionRow) := by
  intro ids
  induction ids with
  | nil => rfl
  | cons i t ih =>
    simp only [List.map_cons, mapOpt]
    rw [ih]
    rfl

/-- Coercing the id column of an actions table leaves it unchanged. -/
theorem coerceIds_actionsTable (ids : List Nat) :
    coerceIds (actionsTable ids) = some (actionsTable ids) := by
  show (match mapOpt
      (fun r => (valToNat (r.getD 0 (.str ""))).map (fun n => r.set 0 (.nat n)))
      (ids.map mkActionRow) with
    | none => none
    | some rows => some ⟨(actionsTable ids).cols, rows⟩) = some (actionsTable ids)
  rw [mapOpt_coerce_actionRows]
  rfl

/-- Deduplication is the identity on duplicate-free row lists. -/
theorem dedupKeepLast_eq_self : ∀ {l : List (List Val)}, l.Nodup → dedupKeepLast l = l := by
  intro l h
  induction l with
  | nil => rfl
  | cons r rs ih =>
    rw [dedupKeepLast, if_neg (List.nodup_cons.mp h).1, ih (List.nodup_cons.mp h).2]

/-- An actions table with strictly increasing ids has no duplicate rows. -/
theorem dedupTable_actionsTable {ids : List Nat} (h : List.Pairwise (· < ·) ids) :
    dedupTable (actionsTable ids) = actionsTable ids := by
  unfold dedupTable actionsTable
  simp only [Table.mk.injEq, true_and]
  apply dedupKeepLast_eq_self
  refine List.Nodup.map ?_ (List.Pairwise.imp (fun hlt => Nat.ne_of_lt hlt) h)
  intro a b hab
  unfold mkActionRow at hab
  injection hab with h1 _
  injection h1

/-- Every column list contains each of its own columns. -/
theorem all_contains_self (sel : List String) : sel.all (fun c => sel.contains c) = true := by
  rw [List.all_eq_true]
  intro c hc
  exact List.elem_eq_true_of_mem hc

/-- Projecting a table onto its own header succeeds. -/
theorem project_self_cols {t : Table} {sel : List String} (h : t.cols = sel) :
    ∃ u, project t sel = some u := by
  unfold project
  rw [if_pos (by rw [h]; exact all_contains_self sel)]
  exact ⟨_, rfl⟩

/-- Projecting an actions table onto the canonical actions columns is the
identity. -/
theorem project_actionsTable (ids : List Nat) :
    project (actionsTable ids) actions_cols = some (actionsTable ids) := by
  unfold project
  rw [if_pos (by rfl)]
  unfold actionsTable
  simp only [Option.some.injEq, Table.mk.injEq, true_and]
  rw [List.map_map]
  refine List.map_congr_left ?_
  intro i _
  rfl

/-- Concatenating per-page actions tables yields the actions table of the
concatenated ids. -/
theorem concatT_actionsTables : ∀ (idss : List (List Nat)), idss ≠ [] →
    concatT (idss.map actionsTable) = actionsTable idss.flatten := by
  have H : ∀ (l : List (List Nat)),
      (l.map actionsTable).flatMap (·.rows) = l.flatten.map mkActionRow := by
    intro l
    induction l with
    | nil => rfl
    | cons x rest ih =>
      simp only [List.map_cons, List.flatMap_cons, List.flatten_cons, List.map_append, ih]
      rfl
  intro idss h
  cases idss with
  | nil => exact absurd rfl h
  | cons x rest =>
    show Table.mk (actionsTable x).cols _ = _
    unfold actionsTable
    simp only [Table.mk.injEq, true_and]
    have := H (x :: rest)
    simpa [actionsTable] using this

/-- The header of a concatenation of schema-complete one-row auxiliary
tables. -/
theorem concatT_auxRow_cols (cols : List String) :
    ∀ (idss : List (List Nat)), idss ≠ [] →
      (concatT (idss.map (fun _ => auxRow cols))).cols = cols := by
  intro idss h
  cases idss with
  | nil => exact absurd rfl h
  | cons x rest => rfl

/-- `normalizeDfs` succeeds on a snapshot run segment: the actions table
passes through unchanged and the auxiliary sets project successfully. -/
theorem normalizeDfs_run {ids : List Nat} (hids : List.Pairwise (· < ·) ids)
    {sT gT hT : Table} (hs : sT.cols = sessions_cols) (hh : hT.cols = hardware_cols) :
    ∃ s2 g2 h2, normalizeDfs ⟨actionsTable ids, sT, gT, hT⟩
      = .ok ⟨actionsTable ids, s2, g2, h2⟩ := by
  unfold normalizeDfs
  simp only
  rw [dedupTable_actionsTable hids, project_actionsTable]
  obtain ⟨s2, hs2⟩ := @project_self_cols (dedupTable sT) sessions_cols hs
  obtain ⟨h2, hh2⟩ := @project_self_cols (dedupTable hT) hardware_cols hh
  rw [hs2, hh2]
  exact ⟨s2, _, h2, rfl⟩

/-! ## Toolbox: paths and the store -/

/-- `String.append` concatenates the character data. -/
theorem strData_append (a b : String) : (a ++ b).data = a.data ++ b.data := by
  cases a
  cases b
  rfl

/-- Cancelling a shared prefix under the prefix test. -/
theorem prefB_append_cancel : ∀ (u x y : List Char), prefB (u ++ x) (u ++ y) = prefB x y := by
  intro u x y
  induction u with
  | nil => rfl
  | cons c cs ih => simp [prefB, ih]

/-- A list starts any of its own extensions. -/
theorem prefB_self_append : ∀ (u r : List Char), prefB u (u ++ r) = true := by
  intro u r
  induction u with
  | nil => rfl
  | cons c cs ih => simp [prefB, ih]

/-- A string starts its own extensions. -/
theorem strPref_self_append (p r : String) : strPref p (p ++ r) = true := by
  unfold strPref
  rw [strData_append]
  exact prefB_self_append _ _

/-- Cancelling a shared prefix of both strings under the prefix test. -/
theorem strPref_cancel (u x y : String) : strPref (u ++ x) (u ++ y) = strPref x y := by
  unfold strPref
  rw [strData_append, strData_append]
  exact prefB_append_cancel _ _ _

/-- Cancelling a shared prefix under the lexicographic comparison. -/
theorem lexLt_append_cancel : ∀ (u x y : List Char), lexLt (u ++ x) (u ++ y) = lexLt x y := by
  intro u x y
  induction u with
  | nil => rfl
  | cons c cs ih => simp [lexLt, ih]

/-- Cancelling a shared string prefix under the lexicographic comparison. -/
theorem strLt_append_cancel (u x y : String) : strLt (u ++ x) (u ++ y) = strLt x y := by
  unfold strLt
  rw [strData_append, strData_append]
  exact lexLt_append_cancel _ _ _

/-- A strict comparison of equal-length lists survives appending suffixes. -/
theorem lexLt_of_eq_len_lt : ∀ (a b x y : List Char), a.length = b.length →
    lexLt a b = true → lexLt (a ++ x) (b ++ y) = true := by
  intro a
  induction a with
  | nil =>
    intro b x y hlen h
    cases b with
    | cons d ds => simp at hlen
    | nil => simp [lexLt] at h
  | cons c cs ih =>
    intro b x y hlen h
    cases b with
    | nil => simp at hlen
    | cons d ds =>
      simp only [List.cons_append, lexLt] at h ⊢
      by_cases h1 : c.toNat < d.toNat
      · rw [if_pos h1]
      · rw [if_neg h1] at h ⊢
        by_cases h2 : d.toNat < c.toNat
        · rw [if_pos h2] at h
          exact absurd h (by simp)
        · rw [if_neg h2] at h ⊢
          exact ih ds x y (by simpa using hlen) h

/-- A strict comparison of equal-length strings survives appending. -/
theorem strLt_of_eq_len_lt {a b : String} (x y : String) (hlen : a.length = b.length)
    (h : strLt a b = true) : strLt (a ++ x) (b ++ y) = true := by
  unfold strLt at h ⊢
  rw [strData_append, strData_append]
  exact lexLt_of_eq_len_lt _ _ _ _ hlen h

/-- The comparison `strLe`-then-`strLt` composes strictly. -/
theorem strLe_lt_trans {a b c : String} (h1 : strLe a b = true) (h2 : strLt b c = true) :
    strLt a c = true := by
  unfold strLe at h1
  simp only [Bool.not_eq_true'] at h1
  unfold strLt at h1 h2 ⊢
  by_cases hab : lexLt a.data b.data = true
  · exact lexLt_trans _ _ _ hab h2
  · have hd : a.data = b.data := lexLt_eq_of_not _ _ (by simpa using hab) h1
    rw [hd]
    exact h2

/-- Strictly smaller strings are different. -/
theorem strLt_ne {a b : String} (h : strLt a b = true) : a ≠ b := by
  intro he
  subst he
  unfold strLt at h
  rw [lexLt_irrefl] at h
  cases h

/-! ## The pagination loop against a snapshot source -/

/-- Invariant-carrying run of the pagination loop against a snapshot source:
the accumulated actions tables are per-page actions tables of consecutive
chunks of the not-yet-collected records, with the cursor strictly above
everything collected and every request issued strictly above the
watermark. -/
theorem snapshot_loop (rem : List Nat) (hrem : List.Pairwise (· < ·) rem) (w maxv : Nat) :
    ∀ (fuel : Nat) (st : FetchState) (idss : List (List Nat)) (st' : FetchState),
      st.actions_l = idss.map actionsTable →
      st.sessions_l = idss.map (fun _ => auxRow sessions_cols) →
      st.geoip_l = idss.map (fun _ => auxRow geoip_cols) →
      st.hardware_l = idss.map (fun _ => auxRow hardware_cols) →
      (∀ l ∈ idss, l ≠ []) →
      idss.flatten ++ rem.filter (fun i => st.newMaxId ≤ i)
        = rem.filter (fun i => w + 1 ≤ i) →
      w + 1 ≤ st.newMaxId →
      (∀ i ∈ idss.flatten, i < st.newMaxId) →
      st.value_count = idss.flatten.length →
      (∀ e ∈ st.trace, w + 1 ≤ e.1) →
      get_data_loop (snapshotApi rem) maxv fuel st = .ok st' →
      ∃ idss' : List (List Nat), st'.actions_l = idss'.map actionsTable
        ∧ st'.sessions_l = idss'.map (fun _ => auxRow sessions_cols)
        ∧ st'.geoip_l = idss'.map (fun _ => auxRow geoip_cols)
        ∧ st'.hardware_l = idss'.map (fun _ => auxRow hardware_cols)
        ∧ (∀ l ∈ idss', l ≠ [])
        ∧ idss'.flatten ++ rem.filter (fun i => st'.newMaxId ≤ i)
            = rem.filter (fun i => w + 1 ≤ i)
        ∧ (∀ i ∈ idss'.flatten, i < st'.newMaxId)
        ∧ st'.value_count = idss'.flatten.length
        ∧ (∀ e ∈ st'.trace, w + 1 ≤ e.1) := by
  intro fuel
  induction fuel with
  | zero =>
    intro st idss st' _ _ _ _ _ _ _ _ _ _ h
    simp [get_data_loop] at h
  | succ fuel ih =>
    intro st idss st' hA hS hG hH hNe hSplit hCur hBnd hCnt hTr h
    simp only [get_data_loop] at h
    by_cases hg : limit ≤ st.maxRecords ∧ st.value_count < maxv
    case neg =>
      rw [if_neg hg] at h
      injection h with h
      subst h
      exact ⟨idss, hA, hS, hG, hH, hNe, hSplit, hBnd, hCnt, hTr⟩
    case pos =>
      rw [if_pos hg] at h
      have hr : retryLoop (snapshotApi rem) (st.newMaxId, st.maxRecords) st.attempts 5
          = (some ⟨actionsTable ((rem.filter (fun i => st.newMaxId ≤ i)).take st.maxRecords),
              auxRow sessions_cols, auxRow geoip_cols, auxRow hardware_cols⟩,
             st.attempts + 1) := rfl
      rw [hr] at h
      dsimp only at h
      set pg := (rem.filter (fun i => st.newMaxId ≤ i)).take st.maxRecords with hpg
      have hlenr : (actionsTable pg).rows.length = pg.length := by
        simp [actionsTable]
      rw [hlenr] at h
      by_cases hn : pg.length = 0
      · rw [if_pos hn] at h
        refine ih _ idss st' ?_ ?_ ?_ ?_ hNe ?_ ?_ ?_ ?_ ?_ h
        · exact hA
        · exact hS
        · exact hG
        · exact hH
        · exact hSplit
        · exact hCur
        · exact hBnd
        · exact hCnt
        · show ∀ e ∈ st.trace ++ [(st.newMaxId, st.maxRecords,
            some ⟨actionsTable pg, auxRow sessions_cols, auxRow geoip_cols,
              auxRow hardware_cols⟩)], w + 1 ≤ e.1
          intro e he
          rcases List.mem_append.mp he with he | he
          · exact hTr e he
          · simp only [List.mem_singleton] at he
            subst he
            exact hCur
      · rw [if_neg hn] at h
        rw [idNats_actionsTable] at h
        have hpgne : pg ≠ [] := by
          intro hc
          rw [hc] at hn
          exact hn rfl
        have hMin : st.newMaxId ≤ maxL pg := by
          have hm := maxL_mem hpgne
          rw [hpg] at hm
          have := List.of_mem_filter (List.mem_of_mem_take hm)
          rw [← hpg] at hm
          simpa using this
        refine ih _ (idss ++ [pg]) st' ?_ ?_ ?_ ?_ ?_ ?_ ?_ ?_ ?_ ?_ h
        · show st.actions_l ++ [actionsTable pg] = (idss ++ [pg]).map actionsTable
          simp [hA]
        · show st.sessions_l ++ [auxRow sessions_cols]
            = (idss ++ [pg]).map (fun _ => auxRow sessions_cols)
          simp [hS]
        · show st.geoip_l ++ [auxRow geoip_cols]
            = (idss ++ [pg]).map (fun _ => auxRow geoip_cols)
          simp [hG]
        · show st.hardware_l ++ [auxRow hardware_cols]
            = (idss ++ [pg]).map (fun _ => auxRow hardware_cols)
          simp [hH]
        · intro l hl
          rcases List.mem_append.mp hl with hl | hl
          · exact hNe l hl
          · simp only [List.mem_singleton] at hl
            subst hl
            exact hpgne
        · show (idss ++ [pg]).flatten ++ rem.filter (fun i => maxL pg + 1 ≤ i)
            = rem.filter (fun i => w + 1 ≤ i)
          rw [List.flatten_append, List.flatten_cons, List.flatten_nil, List.append_nil,
            List.append_assoc, hpg,
            filter_ge_drop hrem st.newMaxId st.maxRecords (hpg ▸ hpgne),
            List.take_append_drop]
          exact hSplit
        · show w + 1 ≤ maxL pg + 1
          omega
        · show ∀ i ∈ (idss ++ [pg]).flatten, i < maxL pg + 1
          intro i hi
          rw [List.flatten_append, List.flatten_cons, List.flatten_nil,
            List.append_nil] at hi
          rcases List.mem_append.mp hi with hi | hi
          · have := hBnd i hi
            omega
          · have := le_maxL_of_mem hi
            omega
        · show st.value_count + pg.length = (idss ++ [pg]).flatten.length
          rw [List.flatten_append, List.flatten_cons, List.flatten_nil, List.append_nil,
            List.length_append]
          omega
        · show ∀ e ∈ st.trace ++ [(st.newMaxId, st.maxRecords,
            some ⟨actionsTable pg, auxRow sessions_cols, auxRow geoip_cols,
              auxRow hardware_cols⟩)], w + 1 ≤ e.1
          intro e he
          rcases List.mem_append.mp he with he | he
          · exact hTr e he
          · simp only [List.mem_singleton] at he
            subst he
            exact hCur

/-! ## Store bookkeeping lemmas -/

/-- Writing at a path absent from the store appends. -/
theorem insertStore_fresh {s : Store} {p : String} {f : StoredFile}
    (h : ∀ e ∈ s, (e.1 == p) = false) : insertStore s p f = s ++ [(p, f)] := by
  have hany : s.any (fun e => e.1 == p) = false := by
    rw [List.any_eq_false]
    intro e he
    simp [h e he]
  simp [insertStore, hany]

/-- A successful lookup survives appending more files. -/
theorem lookupStore_append_left {s l : Store} {q : String} {f : StoredFile}
    (h : lookupStore s q = some f) : lookupStore (s ++ l) q = some f := by
  unfold lookupStore at h ⊢
  rw [List.find?_append]
  rcases hf : s.find? (fun e => e.1 == q) with _ | e
  · rw [hf] at h
    cases h
  · rw [hf] at h
    rw [hf]
    exact h

/-- Looking up a freshly appended file. -/
theorem lookupStore_append_self {s : Store} {p : String} {f : StoredFile}
    (h : ∀ e ∈ s, (e.1 == p) = false) :
    lookupStore (s ++ [(p, f)]) p = some f := by
  unfold lookupStore
  rw [List.find?_append]
  have h1 : s.find? (fun e => e.1 == p) = none := by
    rw [List.find?_eq_none]
    intro e he
    simp [h e he]
  rw [h1]
  simp

/-- Replacing the file at `p` does not disturb a search for another key. -/
theorem find?_map_replace {t : Store} {p q : String} {f : StoredFile} (hq : q ≠ p) :
    (t.map (fun e => if e.1 == p then (p, f) else e)).find? (fun e => e.1 == q)
      = t.find? (fun e => e.1 == q) := by
  have hpq : ¬((p : String) == q) = true := by
    simp only [beq_iff_eq]
    exact fun h1 => hq h1.symm
  induction t with
  | nil => rfl
  | cons e t ih =>
    simp only [List.map_cons]
    by_cases hep : (e.1 == p) = true
    · have he1 : e.1 = p := by simpa using hep
      have he2 : ¬(e.1 == q) = true := by
        rw [he1]
        exact hpq
      rw [if_pos hep]
      rw [@List.find?_cons_of_neg _ (fun e => e.1 == q) (p, f) _ hpq,
        @List.find?_cons_of_neg _ (fun e => e.1 == q) e _ he2]
      exact ih
    · rw [if_neg hep]
      by_cases heq : (e.1 == q) = true
      · rw [@List.find?_cons_of_pos _ (fun e => e.1 == q) e _ heq,
          @List.find?_cons_of_pos _ (fun e => e.1 == q) e _ heq]
      · rw [@List.find?_cons_of_neg _ (fun e => e.1 == q) e _ heq,
          @List.find?_cons_of_neg _ (fun e => e.1 == q) e _ heq]
        exact ih

/-- Writing at one path leaves lookups of other paths unchanged. -/
theorem lookupStore_insert_ne {s : Store} {p q : String} {f : StoredFile} (hq : q ≠ p) :
    lookupStore (insertStore s p f) q = lookupStore s q := by
  unfold insertStore
  by_cases hc : s.any (fun e => e.1 == p) = true
  · simp only [hc, if_true]
    unfold lookupStore
    rw [find?_map_replace hq]
  · rw [if_neg hc]
    unfold lookupStore
    rw [List.find?_append]
    have hpq : ¬((p : String) == q) = true := by
      simp only [beq_iff_eq]
      exact fun h1 => hq h1.symm
    have h0 : List.find? (fun e => e.1 == q) [(p, f)] = none := by
      rw [@List.find?_cons_of_neg _ (fun e => e.1 == q) (p, f) _ hpq]
      rfl
    rw [h0, Option.or_none]

/-- Replacing the file at a path outside a directory leaves the directory
listing unchanged. -/
theorem filter_map_replace {t : Store} {p : String} {f : StoredFile}
    (P : String → Bool) (hp : P p = false) :
    (t.map (fun e => if e.1 == p then (p, f) else e)).filter (fun e => P e.1)
      = t.filter (fun e => P e.1) := by
  induction t with
  | nil => rfl
  | cons e t ih =>
    simp only [List.map_cons]
    by_cases hep : (e.1 == p) = true
    · have he1 : e.1 = p := by simpa using hep
      rw [if_pos hep]
      simp only [List.filter_cons, hp, he1]
      exact ih
    · rw [if_neg hep]
      simp only [List.filter_cons]
      by_cases hPe : P e.1 = true
      · simp only [hPe, if_true]
        rw [ih]
      · simp only [hPe, if_false]
        exact ih

/-- Writing a file into a directory it does not belong to leaves the
directory contents unchanged. -/
theorem filesUnder_insert_notPref {s : Store} {p : String} {f : StoredFile} {dir : String}
    (hpref : strPref (dir ++ "/") p = false) :
    filesUnder (insertStore s p f) dir = filesUnder s dir := by
  unfold insertStore
  by_cases hc : s.any (fun e => e.1 == p) = true
  · simp only [hc, if_true]
    unfold filesUnder
    exact filter_map_replace _ hpref
  · rw [if_neg hc]
    unfold filesUnder
    rw [List.filter_append]
    simp [hpref]

/-- Writing a fresh file into a directory appends it to the listing. -/
theorem filesUnder_insert_fresh {s : Store} {p : String} {f : StoredFile} {dir : String}
    (hfresh : ∀ e ∈ s, (e.1 == p) = false) (hpref : strPref (dir ++ "/") p = true) :
    filesUnder (insertStore s p f) dir = filesUnder s dir ++ [(p, f)] := by
  rw [insertStore_fresh hfresh]
  unfold filesUnder
  rw [List.filter_append]
  congr 1
  simp [hpref]

/-! ## The cross-run store invariant -/

/-- The full path of an Output Unit below the actions directory. -/
def aPath (team name : String) : String := dirFor team "actions" ++ "/" ++ name

/-- Invariant of the durable store after any number of well-timestamped
runs: the actions directory holds exactly the committed Output Units in
write order, their paths strictly increase, each unit carries a non-empty
strictly sorted id list bounded by the watermark `w`, the watermark is the
maximum id of the last unit (`0` with no units), and every unit's name
starts with a 19-character formatted timestamp no later than `bnd`. -/
structure StoreOk (team bnd : String) (store : Store)
    (units : List (String × List Nat)) (w : Nat) : Prop where
  files : actionFiles team store
      = units.map (fun u => (u.1, ⟨to_csv (actionsTable u.2), some (actionsTable u.2)⟩))
  lookups : ∀ u ∈ units, lookupStore store u.1
      = some ⟨to_csv (actionsTable u.2), some (actionsTable u.2)⟩
  names : List.Chain' strLtR (units.map (·.1))
  sortedIds : ∀ u ∈ units, u.2 ≠ [] ∧ List.Pairwise (· < ·) u.2
  bounded : ∀ u ∈ units, ∀ i ∈ u.2, i ≤ w
  wmZero : units = [] → w = 0
  wmLast : ∀ u, units.getLast? = some u → w = maxL u.2
  fts : ∀ u ∈ units, ∃ ft rest, u.1 = aPath team (ft ++ rest)
      ∧ ft.length = 19 ∧ strLe ft bnd = true

/-- Under the store invariant, watermark resolution returns `w`. -/
theorem StoreOk.resolve {team bnd : String} {store : Store}
    {units : List (String × List Nat)} {w : Nat}
    (h : StoreOk team bnd store units w) : get_max_id_adl team store = .ok w := by
  have hnames : (actionFiles team store).map (·.1) = units.map (·.1) := by
    rw [h.files, List.map_map]
    rfl
  simp only [get_max_id_adl]
  rw [hnames, insertionSort_eq_self h.names, List.getLast?_map]
  cases hlast : units.getLast? with
  | none =>
    have hnil : units = [] := by
      cases hu : units with
      | nil => rfl
      | cons a l =>
        rw [hu] at hlast
        rcases List.getLast?_eq_none_iff.mp hlast with h'
        cases h'
    simp [h.wmZero hnil]
  | some u =>
    simp only [Option.map_some']
    have humem : u ∈ units := by
      have h1 := List.getLast?_eq_getElem? units
      rw [hlast] at h1
      exact List.getElem?_mem h1.symm
    have hne : u.2.isEmpty = false := by
      rcases hu2 : u.2 with _ | ⟨a, l⟩
      · exact absurd hu2 (h.sortedIds u humem).1
      · rfl
    simp only [h.lookups u humem, idNats_actionsTable, hne, Bool.false_eq_true, if_false]
    rw [h.wmLast u hlast]

/-! ## Maintaining the store invariant across a checkpoint write -/

/-- A string strictly below another is weakly below it. -/
theorem strLe_of_lt {a b : String} (h : strLt a b = true) : strLe a b = true :=
  strLtR_le h

/-- `strLe` is reflexive. -/
theorem strLe_refl (a : String) : strLe a a = true := by
  unfold strLe strLt
  rw [lexLt_irrefl]
  rfl

/-- The empty string is strictly below every non-empty string. -/
theorem strLt_empty {ft : String} (h : ft.length ≠ 0) : strLt "" ft = true := by
  cases ft with
  | mk d =>
    cases d with
    | nil => exact absurd rfl h
    | cons c cs => rfl

/-- Weakening the timestamp bound of the store invariant. -/
theorem StoreOk.mono {team bnd bnd2 : String} {store : Store}
    {units : List (String × List Nat)} {w : Nat}
    (h : StoreOk team bnd store units w) (hb : strLt bnd bnd2 = true) :
    StoreOk team bnd2 store units w :=
  { h with
    fts := fun u hu => by
      obtain ⟨ftu, restu, h1, h2, h3⟩ := h.fts u hu
      exact ⟨ftu, restu, h1, h2, strLe_of_lt (strLe_lt_trans h3 hb)⟩ }

/-- The grouping of the Output Unit name as timestamp plus remainder. -/
theorem unitName_decomp (ft : String) (mn mx : Nat) :
    unitName ft mn mx
      = ft ++ ("_" ++ (toString mn ++ ("_" ++ (toString mx ++ ".csv")))) := by
  unfold unitName
  rw [String.append_assoc, String.append_assoc, String.append_assoc,
    String.append_assoc]

/-- A first-character mismatch refutes the prefix test. -/
theorem prefB_head_ne : ∀ {a b : List Char} (c d : Char), a.head? = some c →
    b.head? = some d → (c == d) = false → prefB a b = false := by
  intro a b c d ha hb h
  cases a with
  | nil => cases ha
  | cons c1 cs =>
    cases b with
    | nil => cases hb
    | cons d1 ds =>
      injection ha with ha
      injection hb with hb
      subst ha
      subst hb
      simp [prefB, h]

/-- Reducing prefix incompatibility of two collection directories of one
source to their distinct collection names. -/
theorem strPref_dirFor_ne {team x y name : String}
    (h : prefB (x.data ++ "/".data) (y.data ++ ("/".data ++ name.data)) = false) :
    strPref (dirFor team x ++ "/") (dirFor team y ++ "/" ++ name) = false := by
  unfold strPref dirFor
  simp only [strData_append, List.append_assoc]
  rw [prefB_append_cancel, prefB_append_cancel, prefB_append_cancel]
  exact h

/-- The actions directory is no prefix of a sessions Output Unit path. -/
theorem strPref_actions_sessions (team name : String) :
    strPref (dirFor team "actions" ++ "/") (dirFor team "sessions" ++ "/" ++ name)
      = false := by
  apply strPref_dirFor_ne
  apply prefB_head_ne 'a' 's'
  · rfl
  · rfl
  · decide

/-- The actions directory is no prefix of a geoip Output Unit path. -/
theorem strPref_actions_geoip (team name : String) :
    strPref (dirFor team "actions" ++ "/") (dirFor team "geoip" ++ "/" ++ name)
      = false := by
  apply strPref_dirFor_ne
  apply prefB_head_ne 'a' 'g'
  · rfl
  · rfl
  · decide

/-- The actions directory is no prefix of a hardware Output Unit path. -/
theorem strPref_actions_hardware (team name : String) :
    strPref (dirFor team "actions" ++ "/") (dirFor team "hardware" ++ "/" ++ name)
      = false := by
  apply strPref_dirFor_ne
  apply prefB_head_ne 'a' 'h'
  · rfl
  · rfl
  · decide

/-- Every committed Output Unit path sorts strictly below a fresh actions
path whose 19-character timestamp is strictly above the bound. -/
theorem storeOk_names_lt {team bnd ft : String} {store : Store}
    {units : List (String × List Nat)} {w : Nat}
    (hok : StoreOk team bnd store units w) (hftlen : ft.length = 19)
    (hbnd : strLt bnd ft = true) (rest2 : String) :
    ∀ u ∈ units, strLt u.1 (aPath team (ft ++ rest2)) = true := by
  intro u hu
  obtain ⟨ftu, restu, hdec, hlen, hle⟩ := hok.fts u hu
  rw [hdec]
  unfold aPath
  rw [strLt_append_cancel]
  exact strLt_of_eq_len_lt restu rest2 (by rw [hlen, hftlen]) (strLe_lt_trans hle hbnd)

/-- A fresh actions path with a strictly newer timestamp is absent from the
store. -/
theorem storeOk_fresh {team bnd ft : String} {store : Store}
    {units : List (String × List Nat)} {w : Nat}
    (hok : StoreOk team bnd store units w) (hftlen : ft.length = 19)
    (hbnd : strLt bnd ft = true) (rest2 : String) :
    ∀ e ∈ store, (e.1 == aPath team (ft ++ rest2)) = false := by
  intro e he
  rw [beq_eq_false_iff_ne]
  by_cases hp : strPref (dirFor team "actions" ++ "/") e.1 = true
  · have hmem : e ∈ actionFiles team store := by
      unfold actionFiles filesUnder
      exact List.mem_filter.mpr ⟨he, hp⟩
    rw [hok.files] at hmem
    obtain ⟨u, hu, hue⟩ := List.mem_map.mp hmem
    have h1 : e.1 = u.1 := by rw [← hue]
    rw [h1]
    exact strLt_ne (storeOk_names_lt hok hftlen hbnd rest2 u hu)
  · intro hc
    apply hp
    rw [hc]
    exact strPref_self_append _ _

/-- A successful lookup of an actions path survives the three auxiliary
checkpoint writes. -/
theorem lookup_aux3 {team : String} {s : Store} {q name : String}
    {f fS fG fH : StoredFile}
    (hq : strPref (dirFor team "actions" ++ "/") q = true)
    (hl : lookupStore s q = some f) :
    lookupStore (insertStore (insertStore (insertStore s
      (dirFor team "sessions" ++ "/" ++ name) fS)
      (dirFor team "geoip" ++ "/" ++ name) fG)
      (dirFor team "hardware" ++ "/" ++ name) fH) q = some f := by
  have hne : ∀ p : String, strPref (dirFor team "actions" ++ "/") p = false → q ≠ p := by
    intro p hp he
    rw [he] at hq
    rw [hq] at hp
    cases hp
  rw [lookupStore_insert_ne (hne _ (strPref_actions_hardware team name)),
    lookupStore_insert_ne (hne _ (strPref_actions_geoip team name)),
    lookupStore_insert_ne (hne _ (strPref_actions_sessions team name))]
  exact hl

/-- The actions directory listing survives the three auxiliary checkpoint
writes. -/
theorem filesUnder_aux3 {team : String} {s : Store} {name : String}
    {fS fG fH : StoredFile} :
    actionFiles team (insertStore (insertStore (insertStore s
      (dirFor team "sessions" ++ "/" ++ name) fS)
      (dirFor team "geoip" ++ "/" ++ name) fG)
      (dirFor team "hardware" ++ "/" ++ name) fH)
    = actionFiles team s := by
  unfold actionFiles
  rw [filesUnder_insert_notPref (strPref_actions_hardware team name),
    filesUnder_insert_notPref (strPref_actions_geoip team name),
    filesUnder_insert_notPref (strPref_actions_sessions team name)]

/-- Pushing a checkpoint segment with a strictly newer 19-character
timestamp and ids strictly above the watermark re-establishes the store
invariant, with the new unit appended and the watermark advanced. -/
theorem StoreOk.push {team bnd ft : String} {store : Store}
    {units : List (String × List Nat)} {w : Nat}
    (hok : StoreOk team bnd store units w)
    (hftlen : ft.length = 19) (hbnd : strLt bnd ft = true)
    {newIds : List Nat} (hne : newIds ≠ []) (hsort : List.Pairwise (· < ·) newIds)
    (hgt : ∀ i ∈ newIds, w < i) (fS fG fH : StoredFile) :
    StoreOk team ft
      (insertStore (insertStore (insertStore (insertStore store
        (aPath team (unitName ft (minL newIds) (maxL newIds)))
        ⟨to_csv (actionsTable newIds), some (actionsTable newIds)⟩)
        (dirFor team "sessions" ++ "/" ++ unitName ft (minL newIds) (maxL newIds)) fS)
        (dirFor team "geoip" ++ "/" ++ unitName ft (minL newIds) (maxL newIds)) fG)
        (dirFor team "hardware" ++ "/" ++ unitName ft (minL newIds) (maxL newIds)) fH)
      (units ++ [(aPath team (unitName ft (minL newIds) (maxL newIds)), newIds)])
      (maxL newIds) := by
  have hname := unitName_decomp ft (minL newIds) (maxL newIds)
  set nm := unitName ft (minL newIds) (maxL newIds) with hnm
  set fA : StoredFile := ⟨to_csv (actionsTable newIds), some (actionsTable newIds)⟩
    with hfA
  have hfresh : ∀ e ∈ store, (e.1 == aPath team nm) = false := by
    rw [hname]
    exact storeOk_fresh hok hftlen hbnd _
  have hlt_all : ∀ u ∈ units, strLt u.1 (aPath team nm) = true := by
    rw [hname]
    exact storeOk_names_lt hok hftlen hbnd _
  have hprefA : strPref (dirFor team "actions" ++ "/") (aPath team nm) = true :=
    strPref_self_append _ _
  have hwmx : w < maxL newIds := hgt _ (maxL_mem hne)
  constructor
  · rw [filesUnder_aux3]
    show filesUnder (insertStore store (aPath team nm) fA) (dirFor team "actions")
      = _
    rw [filesUnder_insert_fresh hfresh hprefA]
    show actionFiles team store ++ [(aPath team nm, fA)] = _
    rw [hok.files, List.map_append]
    rfl
  · intro u hu
    rcases List.mem_append.mp hu with hu | hu
    · have hq : strPref (dirFor team "actions" ++ "/") u.1 = true := by
        obtain ⟨ftu, restu, hdec, _, _⟩ := hok.fts u hu
        rw [hdec]
        exact strPref_self_append _ _
      apply lookup_aux3 hq
      rw [lookupStore_insert_ne (strLt_ne (hlt_all u hu))]
      exact hok.lookups u hu
    · rw [List.mem_singleton] at hu
      subst hu
      apply lookup_aux3 hprefA
      rw [insertStore_fresh hfresh]
      exact lookupStore_append_self hfresh
  · rw [List.map_append]
    rw [List.chain'_append]
    refine ⟨hok.names, List.chain'_singleton _, ?_⟩
    intro x hx y hy
    simp only [List.map_cons, List.map_nil, List.head?_cons] at hy
    rw [Option.mem_some_iff] at hy
    rw [List.getLast?_map] at hx
    cases hu : units.getLast? with
    | none =>
      rw [hu] at hx
      cases hx
    | some u =>
      rw [hu] at hx
      rw [Option.map_some', Option.mem_some_iff] at hx
      have humem : u ∈ units := by
        have h1 := List.getLast?_eq_getElem? units
        rw [hu] at h1
        exact List.getElem?_mem h1.symm
      subst hx
      subst hy
      exact hlt_all u humem
  · intro u hu
    rcases List.mem_append.mp hu with hu | hu
    · exact hok.sortedIds u hu
    · rw [List.mem_singleton] at hu
      subst hu
      exact ⟨hne, hsort⟩
  · intro u hu
    rcases List.mem_append.mp hu with hu | hu
    · intro i hi
      have := hok.bounded u hu i hi
      omega
    · rw [List.mem_singleton] at hu
      subst hu
      intro i hi
      exact le_maxL_of_mem hi
  · intro hc
    exact absurd hc (by simp)
  · intro u hu
    rw [List.getLast?_concat] at hu
    injection hu with hu
    rw [← hu]
  · intro u hu
    rcases List.mem_append.mp hu with hu | hu
    · obtain ⟨ftu, restu, hdec, hlen, hle⟩ := hok.fts u hu
      exact ⟨ftu, restu, hdec, hlen, strLe_of_lt (strLe_lt_trans hle hbnd)⟩
    · rw [List.mem_singleton] at hu
      subst hu
      refine ⟨ft, "_" ++ (toString (minL newIds) ++ ("_" ++ (toString (maxL newIds)
        ++ ".csv"))), ?_, hftlen, strLe_refl ft⟩
      show aPath team nm = _
      rw [hname]

/-- Under the store invariant, counting the Output Units that hold an id is
counting the committed units whose id list contains it. -/
theorem unitCount_storeOk {team bnd : String} {store : Store}
    {units : List (String × List Nat)} {w : Nat}
    (hok : StoreOk team bnd store units w) (i : Nat) :
    unitCount team store i = units.countP (fun u => u.2.contains i) := by
  unfold unitCount
  rw [hok.files, List.countP_map]
  apply List.countP_congr
  intro u _
  show (match idNats (actionsTable u.2) with
    | none => false
    | some ids => ids.contains i) = true ↔ u.2.contains i = true
  rw [idNats_actionsTable]

/-- Characterization of one driver iteration against a snapshot source under
the store invariant: the iteration resolves watermark `w`, requests only ids
above it, and either fetches nothing and leaves the store unchanged, or
commits precisely a gap-free batch of the snapshot's records above the
watermark into one fresh Output Unit per collection, re-establishing the
invariant with the new actions unit appended and the stored watermark
advanced to the batch maximum. -/
theorem mainIter_snapshot {team bnd t ft : String} {store store2 : Store}
    {units : List (String × List Nat)} {w : Nat} {rem : List Nat}
    {log : IterLog} {gfuel k k2 : Nat}
    (hok : StoreOk team bnd store units w)
    (hft : get_right_format t = some ft) (hftlen : ft.length = 19)
    (hbnd : strLt bnd ft = true)
    (hrem : List.Pairwise (· < ·) rem)
    (h : mainIter team t (snapshotApi rem) gfuel store k = .ok store2 log k2) :
    log.wm = w ∧ (∀ s ∈ log.startIds, w < s) ∧
      ((log.n = 0 ∧ log.ids = [] ∧ store2 = store ∧ StoreOk team ft store2 units w) ∨
        (0 < log.n ∧ log.ids ≠ [] ∧
          (∀ i ∈ log.ids, w < i) ∧
          (∀ i ∈ rem, w < i → i ≤ maxL log.ids → i ∈ log.ids) ∧
          w < maxL log.ids ∧
          StoreOk team ft store2
            (units ++ [(aPath team (unitName ft (minL log.ids) (maxL log.ids)), log.ids)])
            (maxL log.ids))) := by
  have hres := hok.resolve
  unfold mainIter at h
  split at h
  · cases h
  rename_i maxId hmax
  rw [hres] at hmax
  injection hmax with hmax
  subst hmax
  split at h
  · cases h
  · cases h
  rename_i st hst
  simp only at h
  obtain ⟨idss, hA, hS, hG, hH, hNe, hSplit, hBnd, hCnt, hTr⟩ :=
    snapshot_loop rem hrem w MAX_RECORDS_PER_FILE gfuel (initFetch w k) [] st
      rfl rfl rfl rfl (by intro l hl; cases hl) rfl (Nat.le_refl _)
      (by intro i hi; cases hi) rfl (by intro e he; cases he) hst
  by_cases hpos : (fetchResult st).1 > 0
  · rw [if_pos hpos] at h
    split at h
    · cases h
    rename_i dfs hdfs
    split at h
    · cases h
    rename_i a0 ha0
    split at h
    · cases h
    rename_i ids hids
    split at h
    · cases h
    rename_i nd hnd
    split at h
    · cases h
    rename_i sw hpush
    injection h with h1 h2 h3
    have hvc : 0 < st.value_count := by
      by_contra hv
      have hz : (fetchResult st).1 = 0 := by
        unfold fetchResult
        rw [if_neg hv]
      omega
    have hdfs2 : dfs = ⟨concatT st.actions_l, concatT st.sessions_l,
        concatT st.geoip_l, concatT st.hardware_l⟩ := by
      unfold fetchResult at hdfs
      rw [if_pos hvc] at hdfs
      injection hdfs with hdfs
      exact hdfs.symm
    have hflne : idss.flatten ≠ [] := by
      intro hc
      rw [hc] at hCnt
      simp at hCnt
      omega
    have hidssne : idss ≠ [] := by
      intro hc
      apply hflne
      rw [hc]
      rfl
    have hact : dfs.actions = actionsTable idss.flatten := by
      rw [hdfs2]
      show concatT st.actions_l = _
      rw [hA]
      exact concatT_actionsTables idss hidssne
    have hscols : dfs.sessions.cols = sessions_cols := by
      rw [hdfs2]
      show (concatT st.sessions_l).cols = _
      rw [hS]
      exact concatT_auxRow_cols sessions_cols idss hidssne
    have hhcols : dfs.hardware.cols = hardware_cols := by
      rw [hdfs2]
      show (concatT st.hardware_l).cols = _
      rw [hH]
      exact concatT_auxRow_cols hardware_cols idss hidssne
    rw [hact, coerceIds_actionsTable] at ha0
    injection ha0 with ha0
    subst ha0
    rw [idNats_actionsTable] at hids
    injection hids with hids
    subst hids
    have hgt : ∀ i ∈ idss.flatten, w < i := by
      intro i hi
      have hmem : i ∈ rem.filter (fun i => w + 1 ≤ i) := by
        rw [← hSplit]
        exact List.mem_append_left _ hi
      have := List.of_mem_filter hmem
      simpa using this
    have hsort : List.Pairwise (· < ·) idss.flatten := by
      have htake : idss.flatten
          = (rem.filter (fun i => w + 1 ≤ i)).take idss.flatten.length := by
        rw [← hSplit]
        exact (List.take_left _ _).symm
      rw [htake]
      exact List.Pairwise.sublist (List.take_sublist _ _) (List.Pairwise.filter _ hrem)
    have hcov : ∀ i ∈ rem, w < i → i ≤ maxL idss.flatten → i ∈ idss.flatten := by
      intro i hirem hwi himax
      have hmem : i ∈ rem.filter (fun i => w + 1 ≤ i) :=
        List.mem_filter.mpr ⟨hirem, by simpa using hwi⟩
      rw [← hSplit] at hmem
      rcases List.mem_append.mp hmem with hm | hm
      · exact hm
      · exfalso
        have h4 : st.newMaxId ≤ i := by simpa using List.of_mem_filter hm
        have h5 : maxL idss.flatten < st.newMaxId := hBnd _ (maxL_mem hflne)
        omega
    obtain ⟨s2, g2, h2t, hndr⟩ := @normalizeDfs_run idss.flatten hsort
      dfs.sessions dfs.geoip dfs.hardware hscols hhcols
    rw [hndr] at hnd
    injection hnd with hnd
    subst hnd
    have hpcomp : push4 team store ⟨actionsTable idss.flatten, s2, g2, h2t⟩ t
        (minL idss.flatten) (maxL idss.flatten)
      = some (insertStore (insertStore (insertStore (insertStore store
          (aPath team (unitName ft (minL idss.flatten) (maxL idss.flatten)))
          ⟨to_csv (actionsTable idss.flatten), some (actionsTable idss.flatten)⟩)
          (dirFor team "sessions" ++ "/"
            ++ unitName ft (minL idss.flatten) (maxL idss.flatten))
          ⟨to_csv s2, some s2⟩)
          (dirFor team "geoip" ++ "/"
            ++ unitName ft (minL idss.flatten) (maxL idss.flatten))
          ⟨to_csv g2, some g2⟩)
          (dirFor team "hardware" ++ "/"
            ++ unitName ft (minL idss.flatten) (maxL idss.flatten))
          ⟨to_csv h2t, some h2t⟩,
        ["actions", "sessions", "geoip", "hardware"].map fun c =>
          (c, dirFor team c ++ "/"
            ++ unitName ft (minL idss.flatten) (maxL idss.flatten))) := by
      unfold push4 push_to_adl
      rw [hft]
      rfl
    rw [hpcomp] at hpush
    injection hpush with hpush
    subst hpush
    subst h1
    subst h2
    refine ⟨rfl, ?_, .inr ⟨hpos, hflne, hgt, hcov, hgt _ (maxL_mem hflne), ?_⟩⟩
    · intro s hs
      obtain ⟨e, he, rfl⟩ := List.mem_map.mp hs
      have := hTr e he
      omega
    · exact hok.push hftlen hbnd hflne hsort hgt
        ⟨to_csv s2, some s2⟩ ⟨to_csv g2, some g2⟩ ⟨to_csv h2t, some h2t⟩
  · rw [if_neg hpos] at h
    injection h with h1 h2 h3
    subst h1
    subst h2
    refine ⟨rfl, ?_, .inl ⟨by show (fetchResult st).1 = 0; omega, rfl, rfl,
      hok.mono hbnd⟩⟩
    intro s hs
    obtain ⟨e, he, rfl⟩ := List.mem_map.mp hs
    have := hTr e he
    omega

/-- A run that reaches `DONE` with no ceiling-sized fetch performs exactly
one driver iteration. -/
theorem runOnce_one_iter {team t : String} {api : Api} {gfuel fuel : Nat}
    {store store2 : Store} {logs : List IterLog} {kf : Nat}
    (h : runOnce team t api gfuel fuel store = .done store2 logs kf)
    (hn : ∀ il ∈ logs, il.n ≠ MAX_RECORDS_PER_FILE) :
    ∃ log, mainIter team t api gfuel store 0 = .ok store2 log kf ∧ logs = [log] := by
  unfold runOnce at h
  cases fuel with
  | zero => simp [mainLoop] at h
  | succ fuel =>
    simp only [mainLoop, if_true] at h
    cases hit : mainIter team t api gfuel store 0 with
    | exn =>
      rw [hit] at h
      cases h
    | out =>
      rw [hit] at h
      cases h
    | ok store1 log k2 =>
      rw [hit] at h
      have h2 : mainLoop team t api gfuel fuel store1 log.n [log] k2
          = .done store2 logs kf := h
      by_cases hM : log.n = MAX_RECORDS_PER_FILE
      · exfalso
        obtain ⟨suff, hsuf, _⟩ := mainLoop_logs_grow _ _ _ _ _ _ _ _ _ _ _ _ h2
        have hmem : log ∈ logs := by
          rw [hsuf]
          exact List.mem_append_left _ (by simp)
        exact hn log hmem hM
      · cases fuel with
        | zero => simp [mainLoop] at h2
        | succ fuel2 =>
          simp only [mainLoop] at h2
          rw [if_neg hM] at h2
          injection h2 with e1 e2 e3
          subst e1
          subst e2
          subst e3
          exact ⟨log, rfl, rfl⟩

/-- The no-gap conclusions threaded through a whole run history: starting
from any store satisfying the invariant whose committed timestamps lie
strictly below every formatted timestamp of the history, every
record-ingesting run advances the recomputed watermark, requests only ids
above its resolved watermark, and commits every covered id into exactly one
Output Unit. -/
theorem runHistory_invariant {team : String} {gfuel fuel : Nat} :
    ∀ (hist : List (String × List Nat)) (store : Store) (bnd : String)
      (units : List (String × List Nat)) (w : Nat)
      (rls : List (Store × List IterLog)),
      StoreOk team bnd store units w →
      histSorted hist →
      (∀ pr ∈ hist, ∃ ft, get_right_format pr.1 = some ft ∧ ft.length = 19) →
      List.Chain strLtR bnd (hist.map (fun pr => (get_right_format pr.1).getD "")) →
      runHistory team gfuel fuel hist store = some rls →
      (∀ rl ∈ rls, ∀ il ∈ rl.2, il.n ≠ MAX_RECORDS_PER_FILE) →
      ∀ N (hN : N < rls.length) (hNh : N < hist.length),
        0 < ingested (rls.get ⟨N, hN⟩) →
        ∀ wA, get_max_id_adl team (rls.get ⟨N, hN⟩).1 = .ok wA →
          wmB (rls.get ⟨N, hN⟩) < wA
          ∧ (∀ il ∈ (rls.get ⟨N, hN⟩).2, ∀ s ∈ il.startIds, il.wm < s)
          ∧ (∀ i ∈ (hist.get ⟨N, hNh⟩).2, wmB (rls.get ⟨N, hN⟩) < i → i ≤ wA →
              unitCount team (rls.get ⟨N, hN⟩).1 i = 1) := by
  intro hist
  induction hist with
  | nil =>
    intro store bnd units w rls hok hsorted hts hchain hrun hnM N hN hNh hing wA hwA
    injection hrun with hrun
    subst hrun
    exact absurd hN (by simp)
  | cons pr hs ih =>
    obtain ⟨t, rem⟩ := pr
    intro store bnd units w rls hok hsorted hts hchain hrun hnM N hN hNh hing wA hwA
    obtain ⟨ft, hft, hftlen⟩ := hts (t, rem) (List.mem_cons_self _ _)
    rw [List.map_cons, List.chain_cons] at hchain
    dsimp only at hchain
    rw [hft] at hchain
    obtain ⟨hbndft, hchain2⟩ := hchain
    have hremsort : List.Pairwise (· < ·) rem :=
      (sortedLt_iff_pairwise rem).mp (hsorted (t, rem) (List.mem_cons_self _ _))
    simp only [runHistory] at hrun
    cases hro : runOnce team t (snapshotApi rem) gfuel fuel store with
    | exn =>
      simp only [hro] at hrun
      cases hrun
    | out =>
      simp only [hro] at hrun
      cases hrun
    | done store2 logs kf2 =>
      simp only [hro] at hrun
      cases hrest : runHistory team gfuel fuel hs store2 with
      | none =>
        rw [hrest] at hrun
        cases hrun
      | some rls2 =>
        rw [hrest] at hrun
        injection hrun with hrun
        have hrun2 : (store2, logs) :: rls2 = rls := hrun
        clear hrun
        subst hrun2
        have hnM0 : ∀ il ∈ logs, il.n ≠ MAX_RECORDS_PER_FILE := by
          intro il hil
          exact hnM (store2, logs) (List.mem_cons_self _ _) il hil
        obtain ⟨log, hmi, hlogs⟩ := runOnce_one_iter hro hnM0
        subst hlogs
        obtain ⟨hwm, hstart, hdisj⟩ :=
          mainIter_snapshot hok hft hftlen hbndft hremsort hmi
        cases N with
        | zero =>
          have hing2 : 0 < log.n := by
            have h0 := hing
            have h1 : ingested (((store2, [log]) :: rls2).get ⟨0, hN⟩) = log.n := by
              show ([log].map (·.n)).sum = log.n
              simp
            omega
          rcases hdisj with ⟨hz, _, _, _⟩ | ⟨hnpos, hidne, hgt, hcov, hwmax, hok2⟩
          · omega
          · have h5 : get_max_id_adl team store2 = .ok wA := hwA
            rw [hok2.resolve] at h5
            injection h5 with h5
            have hwA2 : wA = maxL log.ids := h5.symm
            subst hwA2
            refine ⟨?_, ?_, ?_⟩
            · show log.wm < maxL log.ids
              rw [hwm]
              exact hwmax
            · show ∀ il ∈ [log], ∀ s ∈ il.startIds, il.wm < s
              intro il hil s hs
              rw [List.mem_singleton] at hil
              subst hil
              rw [hwm]
              exact hstart s hs
            · show ∀ i ∈ rem, log.wm < i → i ≤ maxL log.ids →
                unitCount team store2 i = 1
              intro i hirem hwi hile
              rw [hwm] at hwi
              have hicov : i ∈ log.ids := hcov i hirem hwi hile
              rw [unitCount_storeOk hok2, List.countP_append]
              have hz2 : units.countP (fun u => u.2.contains i) = 0 := by
                rw [List.countP_eq_zero]
                intro u hu hc
                have him : i ∈ u.2 := List.mem_of_elem_eq_true hc
                have := hok.bounded u hu i him
                omega
              have ho : List.countP (fun u => u.2.contains i)
                  [(aPath team (unitName ft (minL log.ids) (maxL log.ids)),
                    log.ids)] = 1 := by
                rw [List.countP_cons, if_pos (List.elem_eq_true_of_mem hicov)]
                rfl
              rw [hz2, ho]
        | succ N2 =>
          have hok2 : ∃ units2 w2, StoreOk team ft store2 units2 w2 := by
            rcases hdisj with ⟨_, _, _, hokk⟩ | ⟨_, _, _, _, _, hokk⟩
            · exact ⟨units, w, hokk⟩
            · exact ⟨_, _, hokk⟩
          obtain ⟨units2, w2, hok2b⟩ := hok2
          exact ih store2 ft units2 w2 rls2 hok2b
            (fun q hq => hsorted q (List.mem_cons_of_mem _ hq))
            (fun q hq => hts q (List.mem_cons_of_mem _ hq))
            hchain2 hrest
            (fun rl hrl il hil => hnM rl (List.mem_cons_of_mem _ hrl) il hil)
            N2 (Nat.lt_of_succ_lt_succ hN) (Nat.lt_of_succ_lt_succ hNh)
            hing wA hwA

/-- C1, amended.  Over every sequence of runs against the same source with no
concurrent writers, provided every run's CLI timestamp formats to a
19-character name prefix, the formatted timestamps strictly increase across
runs (which a same-timestamp rerun or a DST-fold timestamp violates), and no
fetch returns exactly the ceiling count (so each run commits at most one
Output Unit per kind), the original no-gap property does hold: for every run
that ingested records, the watermark recomputed after the run strictly
exceeds the watermark before it, every page request of the run asks for ids
strictly above the resolved watermark, and every primary-record id in
`(watermark_before, watermark_after]` lies in exactly one Output Unit. -/
theorem no_gap_amended :
    ∀ (team : String) (gfuel fuel : Nat) (hist : List (String × List Nat))
      (rls : List (Store × List IterLog)),
      histSorted hist →
      (∀ pr ∈ hist, ∃ ft, get_right_format pr.1 = some ft ∧ ft.length = 19) →
      List.Chain' strLtR (hist.map (fun pr => (get_right_format pr.1).getD "")) →
      runHistory team gfuel fuel hist [] = some rls →
      (∀ rl ∈ rls, ∀ il ∈ rl.2, il.n ≠ MAX_RECORDS_PER_FILE) →
      ∀ N (hN : N < rls.length) (hNh : N < hist.length),
        0 < ingested (rls.get ⟨N, hN⟩) →
        ∀ wA, get_max_id_adl team (rls.get ⟨N, hN⟩).1 = .ok wA →
          wmB (rls.get ⟨N, hN⟩) < wA
          ∧ (∀ il ∈ (rls.get ⟨N, hN⟩).2, ∀ s ∈ il.startIds, il.wm < s)
          ∧ (∀ i ∈ (hist.get ⟨N, hNh⟩).2, wmB (rls.get ⟨N, hN⟩) < i → i ≤ wA →
              unitCount team (rls.get ⟨N, hN⟩).1 i = 1) := by
  intro team gfuel fuel hist rls hsorted hts hchain hrun hnM N hN hNh hing wA hwA
  have hok0 : StoreOk team "" [] [] 0 := by
    constructor
    · rfl
    · intro u hu
      cases hu
    · trivial
    · intro u hu
      cases hu
    · intro u hu
      cases hu
    · intro _
      rfl
    · intro u hu
      cases hu
    · intro u hu
      cases hu
  have hchain0 : List.Chain strLtR ""
      (hist.map (fun pr => (get_right_format pr.1).getD "")) := by
    cases hhist : hist with
    | nil => exact List.Chain.nil
    | cons pr hs =>
      rw [List.map_cons, List.chain_cons]
      constructor
      · obtain ⟨ft, hft, hlen⟩ := hts pr (by rw [hhist]; exact List.mem_cons_self _ _)
        show strLt "" ((get_right_format pr.1).getD "") = true
        rw [hft]
        exact strLt_empty (by rw [Option.getD_some, hlen]; omega)
      · have hc2 := hchain
        rw [hhist, List.map_cons] at hc2
        exact hc2
  exact runHistory_invariant hist [] "" [] 0 rls hok0 hsorted hts hchain0 hrun hnM
    N hN hNh hing wA hwA

/-- The two-run history behind the amended no-gap witness: the source holds
ids `{1, 100}` at the first run and has grown (append-only) to
`{1, 100, 101, 200}` by the second, and the CLI timestamps strictly
increase. -/
def wHist : List (String × List Nat) :=
  [("2021-12-23T17:15:09-05:00", [1, 100]),
   ("2021-12-23T18:00:00-05:00", [1, 100, 101, 200])]

set_option maxRecDepth 200000 in
/-- C1 amended, witness: on the two-run history `wHist`, run 2 (index 1)
ingests records, the watermark recomputed after it (200) strictly exceeds
the watermark it resolved (100), its page request started above that
watermark, and each snapshot id in `(100, 200]` lies in exactly one Output
Unit. -/
theorem no_gap_amended_witness :
    histSorted wHist ∧
    (wmB (((runHistory "mls_tor" 9 9 wHist []).getD []).get ⟨1, by decide⟩) < 200
      ∧ (∀ il ∈ (((runHistory "mls_tor" 9 9 wHist []).getD []).get ⟨1, by decide⟩).2,
          ∀ s ∈ il.startIds, il.wm < s)
      ∧ (∀ i ∈ (wHist.get ⟨1, by decide⟩).2,
          wmB (((runHistory "mls_tor" 9 9 wHist []).getD []).get ⟨1, by decide⟩) < i →
          i ≤ 200 →
          unitCount "mls_tor"
            (((runHistory "mls_tor" 9 9 wHist []).getD []).get ⟨1, by decide⟩).1 i
            = 1)) :=
  ⟨by decide,
    no_gap_amended "mls_tor" 9 9 wHist ((runHistory "mls_tor" 9 9 wHist []).getD [])
      (by decide)
      (by
        intro pr hpr
        rcases List.mem_cons.mp hpr with h1 | h1
        · subst h1
          exact ⟨"2021-12-23_17_15_09", by rfl, by rfl⟩
        · rw [List.mem_singleton] at h1
          subst h1
          exact ⟨"2021-12-23_18_00_00", by rfl, by rfl⟩)
      (by
        rw [show wHist.map (fun pr => (get_right_format pr.1).getD "")
            = ["2021-12-23_17_15_09", "2021-12-23_18_00_00"] from rfl]
        rw [List.chain'_cons]
        exact ⟨by decide, List.chain'_singleton _⟩)
      (by rfl)
      (by decide)
      1 (by decide) (by decide) (by decide) 200 (by rfl)⟩

end YinzIngest
